import Mathlib

/-!
Verification of the MTProto proxy checker
(src/helpers/mtproto_checker_3_8_10_ubuntu_20.py).

Shallow embedding: the pure string / byte manipulation functions of the
checker are translated directly; network probes (the TLS handshake and the
Telethon session attempts) enter as oracle parameters; the refresher cycle
is a pure function from the configured proxies, the probe results and the
tracker state to the updated state and the published snapshot.  Byte
strings are `List Nat` with entries below 256, exceptions are `Except` and
`Option` values.
-/

deriving instance DecidableEq for Except

namespace MtprotoChecker

/-! ## Python string primitives -/

/-- The characters stripped by Python str.strip() with no argument: every
Unicode whitespace character, i.e. the characters for which str.isspace
holds (Unicode 12, as shipped with CPython 3.8). -/
def pyWhitespaceChars : List Char :=
  [Char.ofNat 9, Char.ofNat 10, Char.ofNat 11, Char.ofNat 12, Char.ofNat 13,
   Char.ofNat 28, Char.ofNat 29, Char.ofNat 30, Char.ofNat 31, ' ',
   Char.ofNat 133, Char.ofNat 160, Char.ofNat 5760,
   Char.ofNat 8192, Char.ofNat 8193, Char.ofNat 8194, Char.ofNat 8195,
   Char.ofNat 8196, Char.ofNat 8197, Char.ofNat 8198, Char.ofNat 8199,
   Char.ofNat 8200, Char.ofNat 8201, Char.ofNat 8202,
   Char.ofNat 8232, Char.ofNat 8233, Char.ofNat 8239, Char.ofNat 8287,
   Char.ofNat 12288]

/-- Strip the characters of a given set from both ends of a character list,
as Python str.strip does. -/
def pyStripList (cs : List Char) (set : List Char) : List Char :=
  ((cs.dropWhile (set.contains ·)).reverse.dropWhile (set.contains ·)).reverse

/-- Model of Python str.strip() with no argument. -/
def pyStrip (s : String) : String := String.mk (pyStripList s.data pyWhitespaceChars)

/-- Model of Python str.replace applied with arguments " " and "": every
space character is removed. -/
def removeSpaces (s : String) : String := String.mk (s.data.filter (· ≠ ' '))

/-- ASCII lowercasing of one character; the checker only lowercases ASCII
configuration strings, where Python str.lower agrees with this. -/
def pyCharLower (c : Char) : Char :=
  if 'A' ≤ c ∧ c ≤ 'Z' then Char.ofNat (c.toNat + 32) else c

/-- Model of Python str.lower restricted to ASCII input. -/
def pyLower (s : String) : String := String.mk (s.data.map pyCharLower)

/-- Model of Python str.startswith. -/
def pyStartsWith (s pre : String) : Bool := pre.data.isPrefixOf s.data

/-- Model of Python len() on a str. -/
def pyLen (s : String) : Nat := s.data.length

/-- Model of the Python slice s[n:]. -/
def pyDrop (s : String) (n : Nat) : String := String.mk (s.data.drop n)

/-! ## Hex encoding and decoding -/

/-- Lowercase hex digit for a value below 16. -/
def hexDigitChar (n : Nat) : Char := ("0123456789abcdef").data.getD n '0'

def bytesHexChars : List Nat → List Char
  | [] => []
  | b :: bs => hexDigitChar (b / 16) :: hexDigitChar (b % 16) :: bytesHexChars bs

/-- Model of Python bytes.hex(): lowercase hex, two digits per byte. -/
def bytesHex (bs : List Nat) : String := String.mk (bytesHexChars bs)

/-- Index of a character in a digit alphabet. -/
def scanIdx : List Char → Nat → Char → Option Nat
  | [], _, _ => none
  | a :: as, i, c => if a = c then some i else scanIdx as (i + 1) c

def hexDigits : List Char := ("0123456789abcdef").data

/-- Value of one hex digit; Python bytes.fromhex accepts both cases, which
the ASCII lowercasing folds together. -/
def hexCharVal (c : Char) : Option Nat := scanIdx hexDigits 0 (pyCharLower c)

/-- The six ASCII whitespace characters recognized by Py_ISSPACE; CPython's
bytes.fromhex skips runs of them before each digit pair. -/
def asciiSpaceChars : List Char := [' ', '\t', '\n', Char.ofNat 11, Char.ofNat 12, '\r']

def hexPairsDecode : List Char → Option (List Nat)
  | [] => some []
  | c :: rest =>
      if asciiSpaceChars.contains c then hexPairsDecode rest
      else
        match hexCharVal c, rest with
        | some hi, c2 :: rest2 =>
            (match hexCharVal c2 with
              | some lo => (hexPairsDecode rest2).map (fun tail => (hi * 16 + lo) :: tail)
              | none => none)
        | _, _ => none

/-- Model of Python 3.8 bytes.fromhex: ASCII whitespace is skipped before
each digit pair, each byte then needs two consecutive hex digits; anything
else — a non-hex character, or a lone trailing digit — raises, i.e. yields
none. -/
def bytesFromHex (s : String) : Option (List Nat) := hexPairsDecode s.data

/-! ## Base64 encoding and decoding -/

def b64Alphabet : List Char :=
  ("ABCDEFGHIJKLMNOPQRSTUVWXYZabcdefghijklmnopqrstuvwxyz0123456789+/").data

def b64Char (n : Nat) : Char := b64Alphabet.getD n 'A'

/-- Index of a character in the standard base64 alphabet. -/
def sextetVal (c : Char) : Option Nat := scanIdx b64Alphabet 0 c

def b64EncodeChars : List Nat → List Char
  | [] => []
  | [a] => [b64Char (a / 4), b64Char (a % 4 * 16), '=', '=']
  | [a, b] => [b64Char (a / 4), b64Char (a % 4 * 16 + b / 16), b64Char (b % 16 * 4), '=']
  | a :: b :: c :: rest =>
      b64Char (a / 4) :: b64Char (a % 4 * 16 + b / 16) ::
        b64Char (b % 16 * 4 + c / 64) :: b64Char (c % 64) :: b64EncodeChars rest

/-- Model of Python base64.b64encode with the standard alphabet and
padding. -/
def b64encode (bs : List Nat) : String := String.mk (b64EncodeChars bs)

def isB64AlphaChar (c : Char) : Bool := b64Alphabet.contains c

/-- binascii_find_valid as used by the padding branch of a2b_base64: scan
the input after the current padding sign for the next data-or-padding
character; true iff that character is a second padding sign. -/
def a2bSeekPad : List Char → Bool
  | [] => false
  | c :: rest =>
      if c = '=' then true
      else if (sextetVal c).isSome then false
      else a2bSeekPad rest

/-- State machine of CPython 3.8 binascii.a2b_base64 (the decoder that
base64.b64decode calls with validate left False): characters outside the
alphabet are skipped; a padding sign is skipped at quad positions 0 and 1,
and also at position 2 unless the next data-or-padding character is a
second padding sign; otherwise it ends the data, discarding the pending
bits of the current quad; input ending with pending bits raises, i.e.
yields none.  quadPos counts the data characters of the current quad modulo
4, leftchar holds the pending leftbits bits, acc the decoded bytes in
reverse. -/
def a2bAux : List Char → Nat → Nat → Nat → List Nat → Option (List Nat)
  | [], _, _, leftbits, acc => if leftbits = 0 then some acc.reverse else none
  | c :: rest, quadPos, leftchar, leftbits, acc =>
      if c = '=' then
        if quadPos = 3 ∨ (quadPos = 2 ∧ a2bSeekPad rest) then some acc.reverse
        else a2bAux rest quadPos leftchar leftbits acc
      else
        match sextetVal c with
        | none => a2bAux rest quadPos leftchar leftbits acc
        | some v =>
            if 8 ≤ leftbits + 6 then
              a2bAux rest ((quadPos + 1) % 4) ((leftchar * 64 + v) % 2 ^ (leftbits - 2))
                (leftbits - 2) ((leftchar * 64 + v) / 2 ^ (leftbits - 2) % 256 :: acc)
            else a2bAux rest ((quadPos + 1) % 4) (leftchar * 64 + v) (leftbits + 6) acc

/-- Model of Python base64.b64decode on a str argument with validate left
False: the string is first ASCII-encoded (a non-ASCII character raises),
then handed to the binascii decoder. -/
def b64decode (s : String) : Option (List Nat) :=
  if s.data.all (fun c => decide (c.toNat ≤ 127)) then a2bAux s.data 0 0 0 [] else none

/-! ## Secret normalization and classification -/

/-- The cleaning stage of normalize_secret_to_hex_str: strip surrounding
whitespace, remove every space, drop a case-insensitive 0x marker. -/
def normInput (secret : String) : String :=
  let s0 := removeSpaces (pyStrip secret)
  if pyStartsWith (pyLower s0) "0x" then pyDrop s0 2 else s0

/-- The argument handed to base64.b64decode: the cleaned secret padded with
"=" to a multiple of four characters, pad being (-len(s)) mod 4. -/
def normPadded (secret : String) : String :=
  let s := normInput secret
  String.mk (s.data ++ List.replicate ((4 - pyLen s % 4) % 4) '=')

/-- Shallow embedding of normalize_secret_to_hex_str for string inputs; the
None and bytes branches of the Python function are unreachable from the
configuration parser, which always passes a str.  An `Except.error` value
models an uncaught exception. -/
def normalize_secret_to_hex_str (secret : String) : Except String String :=
  let s := normInput secret
  match bytesFromHex s with
  | some _ => .ok (pyLower s)
  | none =>
      match b64decode (normPadded secret) with
      | some b => .ok (bytesHex b)
      | none => .error "binascii: invalid base64 input"

def printableText (bs : List Nat) : List Char :=
  (bs.filter (fun x => decide (32 ≤ x ∧ x ≤ 126))).map Char.ofNat

/-- Shallow embedding of looks_like_ee_domain_secret. -/
def looks_like_ee_domain_secret (secret_hex : String) : Bool :=
  let s := pyStrip (pyLower secret_hex)
  if ¬ pyStartsWith s "ee" then false
  else if pyLen s < 40 then false
  else
    match bytesFromHex s with
    | none => false
    | some b =>
        if b.length ≤ 17 then false
        else
          let text := printableText (b.drop 17)
          text.contains '.' && text.any (fun c => c.isAlpha)

def hostAllowedChars : List Char :=
  ("abcdefghijklmnopqrstuvwxyzABCDEFGHIJKLMNOPQRSTUVWXYZ0123456789.-").data

/-- Shallow embedding of extract_domain_from_ee_secret. -/
def extract_domain_from_ee_secret (secret_hex : String) : Option String :=
  match bytesFromHex (pyStrip (pyLower secret_hex)) with
  | none => none
  | some b =>
      if b.length ≤ 17 then none
      else
        let s1 := printableText (b.drop 17)
        let s2 := s1.filter (fun c => hostAllowedChars.contains c)
        let s3 := pyStripList s2 ['.', '-']
        if s3.contains '.' then some (String.mk s3) else none

def isLowerHexChar (c : Char) : Bool := hexDigits.contains c

/-- The ASCII bytes of the hostname example.com, used to build the test
secrets of the domain-classification claims. -/
def exampleComBytes : List Nat := [101, 120, 97, 109, 112, 108, 101, 46, 99, 111, 109]

/-- The inner add closure of secret_variants: lowercase the candidate, drop
it when empty, of odd length or not pure lowercase hex, suppress
duplicates, otherwise append. -/
def addVariant (variants : List (String × String)) (name val0 : String) :
    List (String × String) :=
  let val := pyLower val0
  if val = "" then variants
  else if pyLen val % 2 ≠ 0 then variants
  else if ¬ (val.data.all isLowerHexChar) then variants
  else if (variants.map Prod.snd).contains val then variants
  else variants ++ [(name, val)]

/-- Shallow embedding of secret_variants. -/
def secret_variants (secret_hex : String) : List (String × String) :=
  let s := pyStrip (pyLower secret_hex)
  let v0 := addVariant [] "orig" s
  let v1 :=
    if 4 ≤ pyLen s ∧ (pyStartsWith s "ee" ∨ pyStartsWith s "dd") then
      addVariant v0 "strip_prefix" (pyDrop s 2)
    else v0
  let v2 :=
    if pyStartsWith s "ee" ∧ 34 < pyLen s then
      addVariant v1 "ee_to_dd" ("dd" ++ pyDrop s 2)
    else v1
  let v3 :=
    if pyStartsWith s "dd" ∧ 34 < pyLen s then
      addVariant v2 "dd_to_ee" ("ee" ++ pyDrop s 2)
    else v2
  v3


/-! ## Error normalization -/

/-- A Python exception, reduced to its class name and its message. -/
structure PyError where
  cls : String
  msg : String
deriving DecidableEq

/-- Substring test on character lists, modelling the Python in operator on
strings. -/
def containsSub (hay needle : List Char) : Bool :=
  needle.isPrefixOf hay ||
    match hay with
    | [] => false
    | _ :: t => containsSub t needle

/-- Shallow embedding of normalize_error; the isinstance test against
ConnectionResetError is mapped to a class-name comparison. -/
def normalize_error (e : PyError) : String :=
  let msg := if e.msg = "" then e.cls else e.msg
  if e.cls = "ConnectionResetError" ∨ containsSub msg.data ("WinError 10054").data then
    "connection_reset: remote host reset the connection"
  else if containsSub msg.data ("readexactly size can not be less than zero").data then
    "mtproxy_garbage: negative read size (wrong mode/secret or not MTProxy)"
  else if containsSub msg.data ("bytes read on a total of").data then
    "mtproxy_incomplete: remote closed mid-packet (wrong mode/secret or not MTProxy)"
  else if containsSub msg.data ("Proxy closed the connection").data then
    "mtproxy_closed: proxy closed after initial payload"
  else if containsSub msg.data ("Connection to Telegram failed").data then
    "telegram_unreachable_via_proxy: " ++ msg
  else e.cls ++ ": " ++ msg

/-! ## Per-proxy check -/

/-- The result dict built by check_one_proxy (and patched up by check_all
for a crashed task). -/
structure CheckResult where
  ok : Bool
  telegram_ok : Bool
  mode : Option String
  secret_variant : Option String
  method : String
  latency_ms : Option Nat
  error : Option String
deriving DecidableEq

/-- Python "a or b" on optional strings: None and the empty string are
falsy. -/
def pyOr (a b : Option String) : Option String :=
  match a with
  | some s => if s = "" then b else some s
  | none => b

/-- The mode x variant crossing of the two nested for loops of
check_one_proxy, in iteration order: for each framing-mode name, every
(variant name, variant secret) pair. -/
def comboList : List String → List (String × String) → List (String × String × String)
  | [], _ => []
  | m :: ms, vars => vars.map (fun nv => (m, nv.1, nv.2)) ++ comboList ms vars

/-- Outcome of the nested Telethon loop: the winning combination with its
round-trip flag and error (if any combination connected), the error of the
last failed attempt, and the combinations attempted in order. -/
structure ScanOut where
  winner : Option (String × String × Bool × Option String)
  lastErr : Option String
  attempted : List (String × String)
deriving DecidableEq

/-- The nested loops of check_one_proxy over framing modes and secret
variants: probe gives the (connect_ok, rpc_ok, err) triple that
_telethon_try_one_combo returns for a mode name and a variant secret; the
first connecting combination stops the iteration; a failed attempt
overwrites last_err. -/
def telethonScan (probe : String → String → Bool × Bool × Option String) :
    List (String × String × String) → Option String → ScanOut
  | [], le => ⟨none, le, []⟩
  | c :: rest, le =>
      let r := probe c.1 c.2.2
      if r.1 then ⟨some (c.1, c.2.1, r.2.1, r.2.2), le, [(c.1, c.2.1)]⟩
      else
        let o := telethonScan probe rest r.2.2
        ⟨o.winner, o.lastErr, (c.1, c.2.1) :: o.attempted⟩

/-- Shallow embedding of check_one_proxy.  Network effects are oracles:
tlsProbe gives the (ok, err) pair of tls_sni_probe for the extracted domain
(server, port and the clamped timeout are fixed within one call), probe
gives the triple of _telethon_try_one_combo, modes is the list of
MTProxyConnections class names, and elapsedMs abstracts the wall-clock
latency int((time.time() - t0) * 1000).  Besides the result record the
model returns the (mode, variant) combinations attempted by the Telethon
loop, empty when that loop is never entered. -/
def check_one_proxy (tlsProbe : String → Bool × Option String)
    (probe : String → String → Bool × Bool × Option String)
    (modes : List String) (secret : String) (elapsedMs : Nat) :
    CheckResult × List (String × String) :=
  let s := pyStrip (pyLower secret)
  let cont : Option String → CheckResult × List (String × String) := fun tls_err =>
    let out := telethonScan probe (comboList modes (secret_variants s)) none
    match out.winner with
    | some w =>
        ({ ok := true, telegram_ok := w.2.2.1, mode := some w.1,
           secret_variant := some w.2.1, method := "telethon",
           latency_ms := some elapsedMs,
           error := if w.2.2.1 then none else w.2.2.2 }, out.attempted)
    | none =>
        ({ ok := false, telegram_ok := false, mode := none, secret_variant := none,
           method := "telethon", latency_ms := some elapsedMs,
           error := pyOr tls_err out.lastErr }, out.attempted)
  if looks_like_ee_domain_secret s then
    match extract_domain_from_ee_secret s with
    | some domain =>
        if (tlsProbe domain).1 then
          ({ ok := true, telegram_ok := false, mode := none,
             secret_variant := some "orig", method := "tls_sni:" ++ domain,
             latency_ms := some elapsedMs, error := none }, [])
        else cont (tlsProbe domain).2
    | none => cont (some "ee_domain_detected_but_domain_parse_failed")
  else cont none

/-- The full combination list scanned by the Telethon stage of
check_one_proxy for a given secret: framing modes crossed with the
variants of the cleaned secret. -/
def proxyCombos (modes : List String) (secret : String) :
    List (String × String × String) :=
  comboList modes (secret_variants (pyStrip (pyLower secret)))

/-- Shallow embedding of the exception fixup in check_all: a task whose
coroutine raised is replaced by a failed internal record; the concurrent
gather itself only appears through the per-proxy outcome list. -/
def check_all_fixup (outcomes : List (Except PyError CheckResult)) : List CheckResult :=
  outcomes.map fun o =>
    match o with
    | .ok r => r
    | .error e =>
        { ok := false, telegram_ok := false, mode := none, secret_variant := none,
          method := "internal", latency_ms := some 0, error := some (normalize_error e) }

/-! ## Refresher state and snapshot -/

/-- One parsed proxy entry of the configuration. -/
structure Proxy where
  name : String
  server : String
  port : Nat
  secret_hex : String
deriving DecidableEq

/-- The f-string server:port identity used for the alive and dead lists. -/
def proxy_key_ipport (p : Proxy) : String := p.server ++ ":" ++ toString p.port

/-- The f-string server:port:secret-prefix key of the State tables. -/
def stateKey (p : Proxy) : String :=
  p.server ++ ":" ++ toString p.port ++ ":" ++ String.mk (p.secret_hex.data.take 8)

/-- The process-lifetime State object: fail_streak and last_ok dicts,
modelled as association lists. -/
structure CycleState where
  fail_streak : List (String × Nat)
  last_ok : List (String × Nat)
deriving DecidableEq

/-- Python dict.get with a default. -/
def lookupD (m : List (String × Nat)) (k : String) (d : Nat) : Nat :=
  match m with
  | [] => d
  | (k0, v) :: rest => if k0 = k then v else lookupD rest k d

/-- Python dict.get with no default. -/
def lookupOpt (m : List (String × Nat)) (k : String) : Option Nat :=
  match m with
  | [] => none
  | (k0, v) :: rest => if k0 = k then some v else lookupOpt rest k

/-- Python dict item assignment. -/
def updateA (m : List (String × Nat)) (k : String) (v : Nat) : List (String × Nat) :=
  match m with
  | [] => [(k, v)]
  | (k0, v0) :: rest => if k0 = k then (k, v) :: rest else (k0, v0) :: updateA rest k v

/-- The per-cycle merged record published for one proxy. -/
structure ProxyStatus where
  name : String
  server : String
  port : Nat
  secret_preview : String
  ok : Bool
  telegram_ok : Bool
  mode : Option String
  secret_variant : Option String
  method : String
  latency_ms : Option Nat
  last_checked : Nat
  last_ok : Option Nat
  fail_streak : Nat
  error : Option String
deriving DecidableEq

/-- Masked secret preview: first 8 and last 6 hex digits around an ellipsis
when the secret has at least 14 characters, the secret itself otherwise. -/
def secretPreview (s : String) : String :=
  if 14 ≤ pyLen s then
    String.mk (s.data.take 8) ++ "…" ++ String.mk (s.data.drop (pyLen s - 6))
  else s

/-- Accumulators of the merge loop of the refresher: the State object being
mutated, and the statuses, alive and dead lists and counters built by the
loop, in append order. -/
structure CycleAcc where
  state : CycleState
  statuses : List ProxyStatus
  aliveL : List String
  deadL : List String
  aliveC : Nat
  tgC : Nat
deriving DecidableEq

/-- The merge for-loop of the refresher over zip(proxies, results): updates
fail_streak and last_ok, counts alive and telegram_ok results, collects the
alive and dead server:port strings and builds the ProxyStatus records. -/
def cycleLoop (now : Nat) : CycleState → List (Proxy × CheckResult) → CycleAcc
  | st, [] => ⟨st, [], [], [], 0, 0⟩
  | st, (p, r) :: rest =>
      let key := stateKey p
      let ipp := proxy_key_ipport p
      let prev := lookupD st.fail_streak key 0
      let st1 : CycleState :=
        if r.ok then ⟨updateA st.fail_streak key 0, updateA st.last_ok key now⟩
        else ⟨updateA st.fail_streak key (prev + 1), st.last_ok⟩
      let status : ProxyStatus :=
        { name := p.name, server := p.server, port := p.port,
          secret_preview := secretPreview p.secret_hex,
          ok := r.ok, telegram_ok := r.telegram_ok, mode := r.mode,
          secret_variant := r.secret_variant, method := r.method,
          latency_ms := r.latency_ms, last_checked := now,
          last_ok := lookupOpt st1.last_ok key,
          fail_streak := lookupD st1.fail_streak key 0, error := r.error }
      let out := cycleLoop now st1 rest
      { state := out.state,
        statuses := status :: out.statuses,
        aliveL := if r.ok then ipp :: out.aliveL else out.aliveL,
        deadL := if r.ok then out.deadL else ipp :: out.deadL,
        aliveC := if r.ok then out.aliveC + 1 else out.aliveC,
        tgC := if r.ok && r.telegram_ok then out.tgC + 1 else out.tgC }

/-! ## Sorting -/

/-- The sort key of the status list: (not ok, not telegram_ok, latency or
the 10^9 sentinel), with Python booleans compared as 0 and 1. -/
def statusKey (s : ProxyStatus) : Nat × Nat × Nat :=
  (if s.ok then 0 else 1, if s.telegram_ok then 0 else 1,
   match s.latency_ms with
   | some l => l
   | none => 10 ^ 9)

/-- Lexicographic order on Nat triples, as Python compares key tuples. -/
def tripleLe (a b : Nat × Nat × Nat) : Prop :=
  a.1 < b.1 ∨ (a.1 = b.1 ∧ (a.2.1 < b.2.1 ∨ (a.2.1 = b.2.1 ∧ a.2.2 ≤ b.2.2)))

instance (a b : Nat × Nat × Nat) : Decidable (tripleLe a b) := by
  unfold tripleLe; exact inferInstance

/-- The comparison under which statuses.sort orders the status list. -/
def statusLe (a b : ProxyStatus) : Prop := tripleLe (statusKey a) (statusKey b)

instance (a b : ProxyStatus) : Decidable (statusLe a b) := by
  unfold statusLe; exact inferInstance

instance : IsTotal ProxyStatus statusLe :=
  ⟨by intro a b; unfold statusLe tripleLe; omega⟩

instance : IsTrans ProxyStatus statusLe :=
  ⟨by intro a b c; unfold statusLe tripleLe; omega⟩

/-- Boolean comparison of octet tuples: Python compares variable-length
tuples of ints lexicographically, a strict prefix being smaller. -/
def natListLe : List Nat → List Nat → Bool
  | [], _ => true
  | _ :: _, [] => false
  | a :: as, b :: bs => decide (a < b) || (decide (a = b) && natListLe as bs)

/-- Positional int() of Python on a nonnegative decimal literal. -/
def digitsVal : List Char → Nat → Nat
  | [], acc => acc
  | c :: cs, acc => digitsVal cs (acc * 10 + (c.toNat - '0'.toNat))

/-- Model of Python int() on the strings the checker feeds it: nonempty all
digit strings convert, everything else raises.  (Python also tolerates
signs, surrounding whitespace and interior underscores, which no server or
port string produced by the configuration parser contains.) -/
def pyIntNat (cs : List Char) : Option Nat :=
  if cs ≠ [] ∧ cs.all Char.isDigit then some (digitsVal cs 0) else none

/-- Python rsplit with separator ":" and maxsplit 1, requiring (as the
tuple unpacking in ipport_sort_key does) that a colon is present. -/
def rsplitColon (cs : List Char) : Option (List Char × List Char) :=
  let after := (cs.reverse.takeWhile (fun c => c ≠ ':')).reverse
  if after.length = cs.length then none
  else some (cs.take (cs.length - after.length - 1), after)

/-- Python str.split on every dot, keeping empty pieces. -/
def splitOnDot : List Char → List (List Char)
  | [] => [[]]
  | c :: cs =>
      let r := splitOnDot cs
      if c = '.' then [] :: r
      else
        match r with
        | [] => [[c]]
        | p :: ps => (c :: p) :: ps

/-- Shallow embedding of ipport_sort_key; none models the ValueError raised
when the port part is missing or when the server is not a dotted decimal
numeric address. -/
def ipport_sort_key (s : String) : Option (List Nat × Nat) := do
  let (ip, portCs) ← rsplitColon s.data
  let port ← pyIntNat portCs
  let octets ← (splitOnDot ip).mapM pyIntNat
  some (octets, port)

/-- The key of ipport_sort_key with a default, total for use as a sorting
relation; buildSnapshot only sorts lists on which every key is defined. -/
def keyD (s : String) : List Nat × Nat := (ipport_sort_key s).getD ([], 0)

/-- Order on (octets, port) keys: Python tuple comparison. -/
def ipKeyLe (k1 k2 : List Nat × Nat) : Prop :=
  (k1.1 = k2.1 ∧ k1.2 ≤ k2.2) ∨ (k1.1 ≠ k2.1 ∧ natListLe k1.1 k2.1 = true)

instance (k1 k2 : List Nat × Nat) : Decidable (ipKeyLe k1 k2) := by
  unfold ipKeyLe; exact inferInstance

/-- The comparison under which the alive and dead lists are sorted. -/
def ipLe (a b : String) : Prop := ipKeyLe (keyD a) (keyD b)

instance (a b : String) : Decidable (ipLe a b) := by
  unfold ipLe; exact inferInstance

/-- Model of sorted(set(l), key=ipport_sort_key): deduplicate, then sort by
key; any element whose key raises makes the whole call raise. -/
def sortIpport (l : List String) : Option (List String) :=
  if l.all (fun s => (ipport_sort_key s).isSome) then
    some (List.insertionSort ipLe l.dedup)
  else none

/-- The published JSON snapshot.  The datetime string and the meta fields
that merely echo configuration (refresh window, next_refresh_in_s,
timeout_s, modes_available) are omitted; the computed meta fields are kept,
as Option values because the error snapshot carries an error field in meta
instead of the totals. -/
structure Snapshot where
  timestamp : Nat
  metaError : Option String
  metaTotal : Option Nat
  metaAlive : Option Nat
  metaTelegramOk : Option Nat
  alive_list : List String
  alive_count : Nat
  dead_list : List String
  dead_count : Nat
  proxies : List ProxyStatus
deriving DecidableEq

/-- The merge, sort and snapshot build of one refresher cycle, i.e. lines
539-609 of the checker, which run outside the try block guarding check_all.
The State mutations happen before the sorts, so the updated state survives
even when the snapshot build raises; an `Except.error` snapshot component
models an uncaught exception that kills the refresher thread. -/
def buildSnapshot (proxies : List Proxy) (results : List CheckResult) (now : Nat)
    (st : CycleState) : CycleState × Except String Snapshot :=
  let acc := cycleLoop now st (proxies.zip results)
  match sortIpport acc.aliveL, sortIpport acc.deadL with
  | some aL, some dL =>
      (acc.state, .ok
        { timestamp := now, metaError := none,
          metaTotal := some acc.statuses.length, metaAlive := some acc.aliveC,
          metaTelegramOk := some acc.tgC,
          alive_list := aL, alive_count := acc.aliveC,
          dead_list := dL, dead_count := acc.deadL.length,
          proxies := List.insertionSort statusLe acc.statuses })
  | _, _ => (acc.state, .error "ValueError: ipport_sort_key on a non-numeric server")

/-- The error-flagged, empty-result snapshot published when check_all (the
whole cycle) raises. -/
def errorSnapshot (e : PyError) (now : Nat) : Snapshot :=
  { timestamp := now, metaError := some ("refresher_failed: " ++ normalize_error e),
    metaTotal := none, metaAlive := none, metaTelegramOk := none,
    alive_list := [], alive_count := 0, dead_list := [], dead_count := 0,
    proxies := [] }

/-- One iteration of the refresher loop after the sleep: checkOutcome is
the outcome of run_asyncio(check_all(...)), the only expression guarded by
the try block; on an exception there the error snapshot is published and
the loop continues with the state untouched, otherwise the merge and
snapshot build run unprotected. -/
def refresherCycle (proxies : List Proxy) (checkOutcome : Except PyError (List CheckResult))
    (now : Nat) (st : CycleState) : CycleState × Except String Snapshot :=
  match checkOutcome with
  | .error e => (st, .ok (errorSnapshot e now))
  | .ok results => buildSnapshot proxies results now st

/-- Recursion principle following the two-chars-per-byte shape of the hex
decoder. -/
def TwoStep {α : Type} (motive : List α → Prop) (h0 : motive [])
    (h1 : ∀ a, motive [a])
    (h2 : ∀ a b rest, motive rest → motive (a :: b :: rest)) :
    ∀ l, motive l
  | [] => h0
  | [a] => h1 a
  | a :: b :: rest => h2 a b rest (TwoStep motive h0 h1 h2 rest)

/-- Recursion principle following the three-bytes-per-quad shape of the
base64 encoder. -/
def ThreeStep {α : Type} (motive : List α → Prop) (h0 : motive [])
    (h1 : ∀ a, motive [a]) (h2 : ∀ a b, motive [a, b])
    (h3 : ∀ a b c rest, motive rest → motive (a :: b :: c :: rest)) :
    ∀ l, motive l
  | [] => h0
  | [a] => h1 a
  | [a, b] => h2 a b
  | a :: b :: c :: rest => h3 a b c rest (ThreeStep motive h0 h1 h2 h3 rest)

/-! ## Character-level facts -/

theorem scanIdx_mem {l : List Char} {i s : Nat} {c : Char}
    (h : scanIdx l i c = some s) : c ∈ l := by
  induction l generalizing i with
  | nil => simp [scanIdx] at h
  | cons a as ih =>
      by_cases hac : a = c
      · subst hac; exact List.mem_cons_self a as
      · simp only [scanIdx, if_neg hac] at h
        exact List.mem_cons_of_mem _ (ih h)

theorem scanIdx_lt {l : List Char} {i s : Nat} {c : Char}
    (h : scanIdx l i c = some s) : s < i + l.length := by
  induction l generalizing i with
  | nil => simp [scanIdx] at h
  | cons a as ih =>
      by_cases hac : a = c
      · simp only [scanIdx, if_pos hac, Option.some.injEq] at h
        simp [List.length_cons]; omega
      · simp only [scanIdx, if_neg hac] at h
        have := ih h
        simp [List.length_cons]; omega

theorem sextetVal_lt {c : Char} {s : Nat} (h : sextetVal c = some s) : s < 64 := by
  have h1 := scanIdx_lt h
  have h2 : b64Alphabet.length = 64 := by decide
  omega

theorem sextetVal_b64Char : ∀ n, n < 64 → sextetVal (b64Char n) = some n := by decide

theorem b64Char_ne_pad : ∀ n, n < 64 → ¬ b64Char n = '=' := by decide

theorem hexCharVal_hexDigitChar : ∀ n, n < 16 → hexCharVal (hexDigitChar n) = some n := by
  decide

theorem hexDigitChar_mem : ∀ n, n < 16 → hexDigitChar n ∈ hexDigits := by decide

theorem hexDigits_clean : ∀ c ∈ hexDigits,
    pyCharLower c = c ∧ pyWhitespaceChars.contains c = false ∧ c ≠ ' ' ∧ c ≠ 'x' := by
  decide

theorem b64Char_mem (n : Nat) : b64Char n ∈ b64Alphabet := by
  by_cases h : n < 64
  · revert h; revert n; decide
  · have hlen : b64Alphabet.length = 64 := by decide
    unfold b64Char
    rw [List.getD_eq_default _ _ (by omega)]
    decide

theorem b64Alphabet_clean : ∀ c ∈ b64Alphabet,
    pyWhitespaceChars.contains c = false ∧ c ≠ ' ' := by decide

theorem pad_clean : pyWhitespaceChars.contains '=' = false ∧ ('=' : Char) ≠ ' ' := by decide

theorem hexDigits_not_space : ∀ c ∈ hexDigits, c ∉ asciiSpaceChars := by decide

theorem space_not_hex : ∀ c ∈ asciiSpaceChars,
    (hexCharVal c).isSome = false ∧ isLowerHexChar c = false ∧ pyCharLower c = c := by decide

theorem b64Alphabet_ascii : ∀ c ∈ b64Alphabet, c.toNat ≤ 127 := by decide

theorem hexPairsDecode_ws {c : Char} (hws : c ∈ asciiSpaceChars) (rest : List Char) :
    hexPairsDecode (c :: rest) = hexPairsDecode rest := by
  conv_lhs => rw [hexPairsDecode.eq_def]
  simp [hws]

theorem hexPairsDecode_pair {c c2 : Char} {hi lo : Nat} (hws : c ∉ asciiSpaceChars)
    (h1 : hexCharVal c = some hi) (h2 : hexCharVal c2 = some lo) (rest2 : List Char) :
    hexPairsDecode (c :: c2 :: rest2) =
      (hexPairsDecode rest2).map (fun tail => (hi * 16 + lo) :: tail) := by
  conv_lhs => rw [hexPairsDecode.eq_def]
  simp [hws, h1, h2]

theorem hexPairsDecode_badfirst {c : Char} (hws : c ∉ asciiSpaceChars)
    (h1 : hexCharVal c = none) (rest : List Char) :
    hexPairsDecode (c :: rest) = none := by
  conv_lhs => rw [hexPairsDecode.eq_def]
  cases rest <;> simp [hws, h1]

theorem hexPairsDecode_lone {c : Char} (hws : c ∉ asciiSpaceChars) :
    hexPairsDecode [c] = none := by
  conv_lhs => rw [hexPairsDecode.eq_def]
  cases hv : hexCharVal c <;> simp [hws, hv]

theorem hexPairsDecode_badsecond {c c2 : Char} {hi : Nat} (hws : c ∉ asciiSpaceChars)
    (h1 : hexCharVal c = some hi) (h2 : hexCharVal c2 = none) (rest2 : List Char) :
    hexPairsDecode (c :: c2 :: rest2) = none := by
  conv_lhs => rw [hexPairsDecode.eq_def]
  simp [hws, h1, h2]

/-! ## Cleaning lemmas -/

theorem dropWhile_eq_self_of {p : Char → Bool} {cs : List Char}
    (h : ∀ c ∈ cs, p c = false) : cs.dropWhile p = cs := by
  cases cs with
  | nil => rfl
  | cons a t => simp [List.dropWhile_cons, h a (List.mem_cons_self a t)]

theorem pyStripList_eq_self {cs set : List Char}
    (h : ∀ c ∈ cs, set.contains c = false) : pyStripList cs set = cs := by
  unfold pyStripList
  rw [dropWhile_eq_self_of (fun c hc => h c hc)]
  rw [dropWhile_eq_self_of (fun c hc => h c (List.mem_reverse.mp hc))]
  simp

theorem pyStrip_eq_self {s : String}
    (h : ∀ c ∈ s.data, pyWhitespaceChars.contains c = false) : pyStrip s = s := by
  cases s with
  | mk d => unfold pyStrip; rw [pyStripList_eq_self h]

theorem removeSpaces_eq_self {s : String} (h : ∀ c ∈ s.data, c ≠ ' ') :
    removeSpaces s = s := by
  cases s with
  | mk d =>
      unfold removeSpaces
      congr 1
      exact List.filter_eq_self.mpr (by intro c hc; simpa using h c hc)

theorem pyLower_eq_self {s : String} (h : ∀ c ∈ s.data, pyCharLower c = c) :
    pyLower s = s := by
  cases s with
  | mk d =>
      unfold pyLower
      congr 1
      have h2 := List.map_congr_left h
      simpa using h2

/-! ## Hex roundtrip -/

theorem bytesHexChars_mem {bs : List Nat} (h : ∀ x ∈ bs, x < 256) :
    ∀ c ∈ bytesHexChars bs, c ∈ hexDigits := by
  induction bs with
  | nil => simp [bytesHexChars]
  | cons b t ih =>
      intro c hc
      have hb := h b (List.mem_cons_self b t)
      simp only [bytesHexChars, List.mem_cons] at hc
      rcases hc with h1 | h2 | h3
      · subst h1; exact hexDigitChar_mem _ (by omega)
      · subst h2; exact hexDigitChar_mem _ (by omega)
      · exact ih (fun x hx => h x (List.mem_cons_of_mem _ hx)) c h3

theorem bytesHexChars_length (bs : List Nat) :
    (bytesHexChars bs).length = 2 * bs.length := by
  induction bs with
  | nil => rfl
  | cons b t ih => simp [bytesHexChars, ih]; omega

theorem hexPairsDecode_bytesHexChars {bs : List Nat} (h : ∀ x ∈ bs, x < 256) :
    hexPairsDecode (bytesHexChars bs) = some bs := by
  induction bs with
  | nil => rfl
  | cons b t ih =>
      have hb := h b (List.mem_cons_self b t)
      have h1 : hexCharVal (hexDigitChar (b / 16)) = some (b / 16) :=
        hexCharVal_hexDigitChar _ (by omega)
      have h2 : hexCharVal (hexDigitChar (b % 16)) = some (b % 16) :=
        hexCharVal_hexDigitChar _ (by omega)
      have h3 := ih (fun x hx => h x (List.mem_cons_of_mem _ hx))
      have hs1 : hexDigitChar (b / 16) ∉ asciiSpaceChars :=
        hexDigits_not_space _ (hexDigitChar_mem _ (by omega))
      show hexPairsDecode (hexDigitChar (b / 16) :: hexDigitChar (b % 16) :: bytesHexChars t)
        = some (b :: t)
      rw [hexPairsDecode_pair hs1 h1 h2, h3]
      simp only [Option.map_some', Option.some.injEq, List.cons.injEq]
      exact ⟨by omega, trivial⟩

/-- Decoding the hex form of a byte string gives the bytes back. -/
theorem bytesFromHex_bytesHex {bs : List Nat} (h : ∀ x ∈ bs, x < 256) :
    bytesFromHex (bytesHex bs) = some bs :=
  hexPairsDecode_bytesHexChars h

/-! ## Base64 roundtrip -/

theorem a2bAux_d0 {c : Char} {v : Nat} (hs : sextetVal c = some v) (hne : ¬ c = '=')
    (rest : List Char) (lc : Nat) (acc : List Nat) :
    a2bAux (c :: rest) 0 lc 0 acc = a2bAux rest 1 (lc * 64 + v) 6 acc := by
  simp [a2bAux, hne, hs]

theorem a2bAux_d1 {c : Char} {v : Nat} (hs : sextetVal c = some v) (hne : ¬ c = '=')
    (rest : List Char) (lc : Nat) (acc : List Nat) :
    a2bAux (c :: rest) 1 lc 6 acc =
      a2bAux rest 2 ((lc * 64 + v) % 16) 4 ((lc * 64 + v) / 16 % 256 :: acc) := by
  simp [a2bAux, hne, hs]

theorem a2bAux_d2 {c : Char} {v : Nat} (hs : sextetVal c = some v) (hne : ¬ c = '=')
    (rest : List Char) (lc : Nat) (acc : List Nat) :
    a2bAux (c :: rest) 2 lc 4 acc =
      a2bAux rest 3 ((lc * 64 + v) % 4) 2 ((lc * 64 + v) / 4 % 256 :: acc) := by
  simp [a2bAux, hne, hs]

theorem a2bAux_d3 {c : Char} {v : Nat} (hs : sextetVal c = some v) (hne : ¬ c = '=')
    (rest : List Char) (lc : Nat) (acc : List Nat) :
    a2bAux (c :: rest) 3 lc 2 acc =
      a2bAux rest 0 0 0 ((lc * 64 + v) % 256 :: acc) := by
  simp [a2bAux, hne, hs, Nat.mod_one]

theorem a2bAux_pad2 {rest : List Char} (hseek : a2bSeekPad rest = true)
    (lc lb : Nat) (acc : List Nat) :
    a2bAux ('=' :: rest) 2 lc lb acc = some acc.reverse := by
  simp [a2bAux, hseek]

theorem a2bAux_pad3 (rest : List Char) (lc lb : Nat) (acc : List Nat) :
    a2bAux ('=' :: rest) 3 lc lb acc = some acc.reverse := by
  simp [a2bAux]

theorem a2bAux_tail1 {a : Nat} (ha : a < 256) (acc : List Nat) :
    a2bAux [b64Char (a / 4), b64Char (a % 4 * 16), '=', '='] 0 0 0 acc
      = some (acc.reverse ++ [a]) := by
  rw [a2bAux_d0 (sextetVal_b64Char _ (by omega)) (b64Char_ne_pad _ (by omega)),
    a2bAux_d1 (sextetVal_b64Char _ (by omega)) (b64Char_ne_pad _ (by omega)),
    show ((0 * 64 + a / 4) * 64 + a % 4 * 16) / 16 % 256 = a by omega,
    a2bAux_pad2 (by simp [a2bSeekPad])]
  simp

theorem a2bAux_tail2 {a b : Nat} (ha : a < 256) (hb : b < 256) (acc : List Nat) :
    a2bAux [b64Char (a / 4), b64Char (a % 4 * 16 + b / 16), b64Char (b % 16 * 4), '='] 0 0 0 acc
      = some (acc.reverse ++ [a, b]) := by
  rw [a2bAux_d0 (sextetVal_b64Char _ (by omega)) (b64Char_ne_pad _ (by omega)),
    a2bAux_d1 (sextetVal_b64Char _ (by omega)) (b64Char_ne_pad _ (by omega)),
    show ((0 * 64 + a / 4) * 64 + (a % 4 * 16 + b / 16)) / 16 % 256 = a by omega,
    show ((0 * 64 + a / 4) * 64 + (a % 4 * 16 + b / 16)) % 16 = b / 16 by omega,
    a2bAux_d2 (sextetVal_b64Char _ (by omega)) (b64Char_ne_pad _ (by omega)),
    show (b / 16 * 64 + b % 16 * 4) / 4 % 256 = b by omega,
    a2bAux_pad3]
  simp

theorem a2bAux_quad {a b c : Nat} (ha : a < 256) (hb : b < 256) (hc : c < 256)
    (rest : List Char) (acc : List Nat) :
    a2bAux (b64Char (a / 4) :: b64Char (a % 4 * 16 + b / 16) ::
        b64Char (b % 16 * 4 + c / 64) :: b64Char (c % 64) :: rest) 0 0 0 acc =
      a2bAux rest 0 0 0 (c :: b :: a :: acc) := by
  rw [a2bAux_d0 (sextetVal_b64Char _ (by omega)) (b64Char_ne_pad _ (by omega)),
    a2bAux_d1 (sextetVal_b64Char _ (by omega)) (b64Char_ne_pad _ (by omega)),
    show ((0 * 64 + a / 4) * 64 + (a % 4 * 16 + b / 16)) / 16 % 256 = a by omega,
    show ((0 * 64 + a / 4) * 64 + (a % 4 * 16 + b / 16)) % 16 = b / 16 by omega,
    a2bAux_d2 (sextetVal_b64Char _ (by omega)) (b64Char_ne_pad _ (by omega)),
    show (b / 16 * 64 + (b % 16 * 4 + c / 64)) / 4 % 256 = b by omega,
    show (b / 16 * 64 + (b % 16 * 4 + c / 64)) % 4 = c / 64 by omega,
    a2bAux_d3 (sextetVal_b64Char _ (by omega)) (b64Char_ne_pad _ (by omega)),
    show (c / 64 * 64 + c % 64) % 256 = c by omega]

/-- Decoding the base64 encoding of a byte string gives the bytes back. -/
theorem a2bAux_b64EncodeChars : ∀ bs : List Nat, (∀ x ∈ bs, x < 256) →
    ∀ acc, a2bAux (b64EncodeChars bs) 0 0 0 acc = some (acc.reverse ++ bs) := by
  refine ThreeStep
    (motive := fun l => (∀ x ∈ l, x < 256) →
      ∀ acc, a2bAux (b64EncodeChars l) 0 0 0 acc = some (acc.reverse ++ l)) ?_ ?_ ?_ ?_
  · intro _ acc
    simp [b64EncodeChars, a2bAux]
  · intro a h acc
    exact a2bAux_tail1 (h a (by simp)) acc
  · intro a b h acc
    exact a2bAux_tail2 (h a (by simp)) (h b (by simp)) acc
  · intro a b c rest ih h acc
    have ha := h a (by simp)
    have hb := h b (by simp)
    have hc := h c (by simp)
    show a2bAux (b64Char (a / 4) :: b64Char (a % 4 * 16 + b / 16) ::
        b64Char (b % 16 * 4 + c / 64) :: b64Char (c % 64) :: b64EncodeChars rest) 0 0 0 acc = _
    rw [a2bAux_quad ha hb hc, ih (fun x hx => h x (by simp [hx])) (c :: b :: a :: acc)]
    simp

theorem b64EncodeChars_length_mod (bs : List Nat) :
    (b64EncodeChars bs).length % 4 = 0 := by
  refine ThreeStep (motive := fun l => (b64EncodeChars l).length % 4 = 0)
    rfl (fun a => ?_) (fun a b => ?_) ?_ bs
  · simp [b64EncodeChars]
  · simp [b64EncodeChars]
  intro a b c rest ih
  show (b64Char (a / 4) :: b64Char (a % 4 * 16 + b / 16) ::
      b64Char (b % 16 * 4 + c / 64) :: b64Char (c % 64) :: b64EncodeChars rest).length % 4 = 0
  simp [List.length_cons]
  omega

theorem b64EncodeChars_chars : ∀ bs : List Nat, ∀ c ∈ b64EncodeChars bs,
    c ∈ b64Alphabet ∨ c = '=' := by
  refine ThreeStep
    (motive := fun l => ∀ c ∈ b64EncodeChars l, c ∈ b64Alphabet ∨ c = '=') ?_ ?_ ?_ ?_
  · simp [b64EncodeChars]
  · intro a c hc
    simp only [b64EncodeChars, List.mem_cons, List.not_mem_nil, or_false] at hc
    rcases hc with h | h | h | h <;> subst h <;>
      first
        | exact Or.inl (b64Char_mem _)
        | exact Or.inr rfl
  · intro a b c hc
    simp only [b64EncodeChars, List.mem_cons, List.not_mem_nil, or_false] at hc
    rcases hc with h | h | h | h <;> subst h <;>
      first
        | exact Or.inl (b64Char_mem _)
        | exact Or.inr rfl
  · intro a b c rest ih x hx
    simp only [b64EncodeChars, List.mem_cons] at hx
    rcases hx with h | h | h | h | h
    · subst h; exact Or.inl (b64Char_mem _)
    · subst h; exact Or.inl (b64Char_mem _)
    · subst h; exact Or.inl (b64Char_mem _)
    · subst h; exact Or.inl (b64Char_mem _)
    · exact ih x h

theorem b64encode_ascii (bs : List Nat) :
    (b64encode bs).data.all (fun c => decide (c.toNat ≤ 127)) = true := by
  rw [List.all_eq_true]
  intro c hc
  rcases b64EncodeChars_chars bs c hc with h | h
  · exact decide_eq_true (b64Alphabet_ascii c h)
  · subst h; decide

/-- Decoding the base64 encoding of a byte string through the b64decode
front end gives the bytes back. -/
theorem b64decode_b64encode {bs : List Nat} (hb : ∀ x ∈ bs, x < 256) :
    b64decode (b64encode bs) = some bs := by
  unfold b64decode
  rw [if_pos (b64encode_ascii bs)]
  have h := a2bAux_b64EncodeChars bs hb []
  simpa using h

/-! ## Shape of normalization outputs -/

theorem hexDigitChar_mem_any (n : Nat) : hexDigitChar n ∈ hexDigits := by
  by_cases h : n < 16
  · exact hexDigitChar_mem n h
  · unfold hexDigitChar
    rw [List.getD_eq_default _ _ (by simp; omega)]
    decide

theorem bytesHexChars_mem_any (bs : List Nat) :
    ∀ c ∈ bytesHexChars bs, c ∈ hexDigits := by
  induction bs with
  | nil => simp [bytesHexChars]
  | cons b t ih =>
      intro c hc
      simp only [bytesHexChars, List.mem_cons] at hc
      rcases hc with h1 | h2 | h3
      · subst h1; exact hexDigitChar_mem_any _
      · subst h2; exact hexDigitChar_mem_any _
      · exact ih c h3

theorem isLowerHexChar_iff {c : Char} : isLowerHexChar c = true ↔ c ∈ hexDigits := by
  unfold isLowerHexChar
  simp

theorem hexPairsDecode_chars_aux : ∀ (n : Nat) (cs : List Char) (bs : List Nat),
    cs.length ≤ n → hexPairsDecode cs = some bs →
      (∀ c ∈ cs, (hexCharVal c).isSome = true ∨ c ∈ asciiSpaceChars) ∧
      (cs.filter (fun c => (hexCharVal c).isSome)).length = 2 * bs.length := by
  intro n
  induction n with
  | zero =>
      intro cs bs hlen h
      have hnil : cs = [] := List.eq_nil_of_length_eq_zero (Nat.le_zero.mp hlen)
      subst hnil
      rw [show hexPairsDecode [] = some [] from rfl] at h
      injection h with h
      subst h
      simp
  | succ n ih =>
      intro cs bs hlen h
      cases cs with
      | nil =>
          rw [show hexPairsDecode [] = some [] from rfl] at h
          injection h with h
          subst h
          simp
      | cons c rest =>
          by_cases hws : c ∈ asciiSpaceChars
          · rw [hexPairsDecode_ws hws] at h
            obtain ⟨hmem, hflt⟩ := ih rest bs (by simp at hlen ⊢; omega) h
            refine ⟨?_, ?_⟩
            · intro x hx
              rcases List.mem_cons.mp hx with rfl | hx
              · exact Or.inr hws
              · exact hmem x hx
            · rw [List.filter_cons, if_neg (by simp [(space_not_hex c hws).1])]
              exact hflt
          · cases hv1 : hexCharVal c with
            | none =>
                rw [hexPairsDecode_badfirst hws hv1] at h
                exact absurd h (by simp)
            | some hi =>
                cases rest with
                | nil =>
                    rw [hexPairsDecode_lone hws] at h
                    exact absurd h (by simp)
                | cons c2 rest2 =>
                    cases hv2 : hexCharVal c2 with
                    | none =>
                        rw [hexPairsDecode_badsecond hws hv1 hv2] at h
                        exact absurd h (by simp)
                    | some lo =>
                        rw [hexPairsDecode_pair hws hv1 hv2] at h
                        cases ht : hexPairsDecode rest2 with
                        | none =>
                            rw [ht] at h
                            exact absurd h (by simp)
                        | some tail =>
                            rw [ht] at h
                            simp only [Option.map_some', Option.some.injEq] at h
                            subst h
                            obtain ⟨hmem, hflt⟩ :=
                              ih rest2 tail (by simp at hlen ⊢; omega) ht
                            refine ⟨?_, ?_⟩
                            · intro x hx
                              rcases List.mem_cons.mp hx with rfl | hx
                              · exact Or.inl (by simp [hv1])
                              · rcases List.mem_cons.mp hx with rfl | hx
                                · exact Or.inl (by simp [hv2])
                                · exact hmem x hx
                            · rw [List.filter_cons, if_pos (by simp [hv1]),
                                List.filter_cons, if_pos (by simp [hv2])]
                              simp only [List.length_cons, hflt]
                              omega

theorem hexPairsDecode_chars {cs : List Char} {bs : List Nat}
    (h : hexPairsDecode cs = some bs) :
    (∀ c ∈ cs, (hexCharVal c).isSome = true ∨ c ∈ asciiSpaceChars) ∧
    (cs.filter (fun c => (hexCharVal c).isSome)).length = 2 * bs.length :=
  hexPairsDecode_chars_aux cs.length cs bs (le_refl _) h

theorem pyCharLower_mem_of_hexCharVal {c : Char} (h : (hexCharVal c).isSome = true) :
    pyCharLower c ∈ hexDigits := by
  obtain ⟨s, hs⟩ := Option.isSome_iff_exists.mp h
  exact scanIdx_mem hs

/-- Every successful normalization yields a string of lowercase hex digits
and interior ASCII whitespace, the number of hex digits being even; results
on the base64 path contain no whitespace at all, and hex-path results
contain whitespace exactly when the cleaned input retained interior
tabs/newlines that bytes.fromhex skips. -/
theorem normalize_ok_shape {s h : String}
    (hok : normalize_secret_to_hex_str s = .ok h) :
    h.data.all (fun c => isLowerHexChar c || asciiSpaceChars.contains c) = true ∧
    (h.data.filter isLowerHexChar).length % 2 = 0 := by
  unfold normalize_secret_to_hex_str at hok
  dsimp only at hok
  cases hm : bytesFromHex (normInput s) with
  | some bs =>
      rw [hm] at hok
      simp only [Except.ok.injEq] at hok
      subst hok
      obtain ⟨hmem, hflt⟩ := hexPairsDecode_chars hm
      constructor
      · rw [List.all_eq_true]
        intro c hc
        simp only [pyLower, List.mem_map] at hc
        obtain ⟨c0, hc0, rfl⟩ := hc
        rcases hmem c0 hc0 with hhex | hws
        · simp [isLowerHexChar_iff.mpr (pyCharLower_mem_of_hexCharVal hhex)]
        · rw [(space_not_hex c0 hws).2.2]
          simp only [Bool.or_eq_true]
          right
          simpa using hws
      · have hpe : ∀ c0 ∈ (normInput s).data,
            isLowerHexChar (pyCharLower c0) = (hexCharVal c0).isSome := by
          intro c0 hc0
          rcases hmem c0 hc0 with hhex | hws
          · rw [isLowerHexChar_iff.mpr (pyCharLower_mem_of_hexCharVal hhex), hhex]
          · rw [(space_not_hex c0 hws).2.2,
              (space_not_hex c0 hws).2.1,
              (space_not_hex c0 hws).1]
        show ((List.map pyCharLower (normInput s).data).filter isLowerHexChar).length % 2 = 0
        rw [List.filter_map, List.length_map,
          List.filter_congr (fun x hx => by simpa using hpe x hx), hflt]
        omega
  | none =>
      rw [hm] at hok
      cases hb : b64decode (normPadded s) with
      | some b =>
          rw [hb] at hok
          simp only [Except.ok.injEq] at hok
          subst hok
          constructor
          · rw [List.all_eq_true]
            intro c hc
            simp [isLowerHexChar_iff.mpr (bytesHexChars_mem_any b c hc)]
          · show ((bytesHexChars b).filter isLowerHexChar).length % 2 = 0
            rw [List.filter_eq_self.mpr
              (fun c hc => isLowerHexChar_iff.mpr (bytesHexChars_mem_any b c hc)),
              bytesHexChars_length]
            omega
      | none =>
          rw [hb] at hok
          exact absurd hok (by simp)

/-- The normalizer raises exactly when the hex decode of the cleaned input
and the padded base64 decode both fail. -/
theorem normalize_error_iff (s : String) :
    normalize_secret_to_hex_str s = .error "binascii: invalid base64 input" ↔
      (bytesFromHex (normInput s) = none ∧ b64decode (normPadded s) = none) := by
  unfold normalize_secret_to_hex_str
  dsimp only
  cases hm : bytesFromHex (normInput s) with
  | some bs => simp
  | none =>
      cases hb : b64decode (normPadded s) with
      | some b => simp
      | none => simp

/-! ## Normalization of the two encodings of a byte string -/

theorem normInput_bytesHex (bs : List Nat) : normInput (bytesHex bs) = bytesHex bs := by
  have hchars := bytesHexChars_mem_any bs
  have hclean : ∀ c ∈ (bytesHex bs).data, pyWhitespaceChars.contains c = false := by
    intro c hc
    exact (hexDigits_clean c (hchars c hc)).2.1
  have hsp : ∀ c ∈ (bytesHex bs).data, c ≠ ' ' := by
    intro c hc
    exact (hexDigits_clean c (hchars c hc)).2.2.1
  have hlow : ∀ c ∈ (bytesHex bs).data, pyCharLower c = c := by
    intro c hc
    exact (hexDigits_clean c (hchars c hc)).1
  unfold normInput
  dsimp only
  rw [pyStrip_eq_self hclean, removeSpaces_eq_self hsp, pyLower_eq_self hlow]
  have hpre : pyStartsWith (bytesHex bs) "0x" = false := by
    cases bs with
    | nil => rfl
    | cons b t =>
        show (['0', 'x'].isPrefixOf
          (hexDigitChar (b / 16) :: hexDigitChar (b % 16) :: bytesHexChars t)) = false
        have hx : hexDigitChar (b % 16) ≠ 'x' :=
          (hexDigits_clean _ (hexDigitChar_mem_any (b % 16))).2.2.2
        simp [List.isPrefixOf]
        intro h1 h2
        exact hx h2.symm
  rw [hpre]
  simp

theorem pyLower_bytesHex (bs : List Nat) : pyLower (bytesHex bs) = bytesHex bs :=
  pyLower_eq_self (fun c hc => (hexDigits_clean c (bytesHexChars_mem_any bs c hc)).1)

theorem normInput_b64encode (bs : List Nat)
    (h0x : pyStartsWith (pyLower (b64encode bs)) "0x" = false) :
    normInput (b64encode bs) = b64encode bs := by
  have hchars := b64EncodeChars_chars bs
  have hclean : ∀ c ∈ (b64encode bs).data, pyWhitespaceChars.contains c = false := by
    intro c hc
    rcases hchars c hc with h | h
    · exact (b64Alphabet_clean c h).1
    · subst h; exact pad_clean.1
  have hsp : ∀ c ∈ (b64encode bs).data, c ≠ ' ' := by
    intro c hc
    rcases hchars c hc with h | h
    · exact (b64Alphabet_clean c h).2
    · subst h; exact pad_clean.2
  unfold normInput
  dsimp only
  rw [pyStrip_eq_self hclean, removeSpaces_eq_self hsp, h0x]
  simp

theorem normalize_bytesHex {bs : List Nat} (hb : ∀ x ∈ bs, x < 256) :
    normalize_secret_to_hex_str (bytesHex bs) = .ok (bytesHex bs) := by
  unfold normalize_secret_to_hex_str
  dsimp only
  rw [normInput_bytesHex, bytesFromHex_bytesHex hb, pyLower_bytesHex]

theorem normalize_b64encode {bs : List Nat} (hb : ∀ x ∈ bs, x < 256)
    (hhex : bytesFromHex (b64encode bs) = none)
    (h0x : pyStartsWith (pyLower (b64encode bs)) "0x" = false) :
    normalize_secret_to_hex_str (b64encode bs) = .ok (bytesHex bs) := by
  unfold normalize_secret_to_hex_str
  dsimp only
  rw [normInput_b64encode bs h0x, hhex]
  have hpad : normPadded (b64encode bs) = b64encode bs := by
    unfold normPadded
    dsimp only
    rw [normInput_b64encode bs h0x]
    have hmod : pyLen (b64encode bs) % 4 = 0 := b64EncodeChars_length_mod bs
    rw [hmod]
    simp
  rw [hpad]
  show (match b64decode (b64encode bs) with
    | some b => Except.ok (bytesHex b)
    | none => Except.error "binascii: invalid base64 input") = _
  rw [show b64decode (b64encode bs) = some bs from b64decode_b64encode hb]

/-! ## Claim C5 -/

/-- Claim C5, counterexample: contrary to the claim, the empty input string
does not raise an invalid-secret error — its hex decode succeeds as the
empty byte string and the empty hex string is returned. -/
theorem c5_counterexample : normalize_secret_to_hex_str "" = .ok "" := by decide

/-- Claim C5 (amended): secret normalization raises the invalid-secret
error exactly when both the hex decode and the padded base64 decode of the
cleaned input fail; every successful result consists solely of lowercase
hex digits and interior ASCII whitespace, with an even number of hex
digits.  Two deviations from the claimed canonical-lowercase-hex contract
are recorded: bytes.fromhex skips ASCII whitespace while the cleaner only
removes spaces, so "ab\tcd" is accepted and returned verbatim, and the
empty string does not raise — its hex decode succeeds and the empty string
is returned. -/
theorem c5_secret_normalization :
    (∀ s, normalize_secret_to_hex_str s = .error "binascii: invalid base64 input" ↔
        (bytesFromHex (normInput s) = none ∧ b64decode (normPadded s) = none)) ∧
    (∀ s h, normalize_secret_to_hex_str s = .ok h →
        h.data.all (fun c => isLowerHexChar c || asciiSpaceChars.contains c) = true ∧
        (h.data.filter isLowerHexChar).length % 2 = 0) ∧
    normalize_secret_to_hex_str "" = .ok "" ∧
    normalize_secret_to_hex_str "ab\tcd" = .ok "ab\tcd" :=
  ⟨normalize_error_iff, fun _ _ hok => normalize_ok_shape hok, by decide, by decide⟩

/-- Claim C5, witness: the amended theorem applied at concrete inputs. -/
theorem c5_secret_normalization_witness :
    normalize_secret_to_hex_str "zzzzz" = .error "binascii: invalid base64 input" ∧
    (("ab12" : String).data.all
        (fun c => isLowerHexChar c || asciiSpaceChars.contains c) = true ∧
      (("ab12" : String).data.filter isLowerHexChar).length % 2 = 0) := by
  constructor
  · exact (c5_secret_normalization.1 "zzzzz").mpr ⟨by decide, by decide⟩
  · exact c5_secret_normalization.2.1 "Ab12" "ab12" (by decide)

/-! ## Claim C6 -/

/-- Claim C6, counterexample: the byte sequence 69 b7 1d encodes in base64
to "abcd", which the normalizer reinterprets as hex, returning "abcd"
rather than the canonical hex 69b71d of the bytes. -/
theorem c6_counterexample :
    b64encode [105, 183, 29] = "abcd" ∧
    bytesHex [105, 183, 29] = "69b71d" ∧
    normalize_secret_to_hex_str (b64encode [105, 183, 29]) = .ok "abcd" ∧
    normalize_secret_to_hex_str (b64encode [105, 183, 29]) ≠
      .ok (bytesHex [105, 183, 29]) := by decide

/-- Claim C6 (amended): for every byte sequence b, normalizing the hex
encoding of b yields exactly b.hex(); normalizing the padded base64
encoding of b also yields b.hex() provided that encoding is not itself
readable as hex by the normalizer — it neither hex-decodes as a whole nor
starts with the case-insensitive 0x marker the normalizer strips first. -/
theorem c6_encoding_agreement (bs : List Nat) (hb : ∀ x ∈ bs, x < 256)
    (hhex : bytesFromHex (b64encode bs) = none)
    (h0x : pyStartsWith (pyLower (b64encode bs)) "0x" = false) :
    normalize_secret_to_hex_str (bytesHex bs) = .ok (bytesHex bs) ∧
    normalize_secret_to_hex_str (b64encode bs) = .ok (bytesHex bs) :=
  ⟨normalize_bytesHex hb, normalize_b64encode hb hhex h0x⟩

/-- Claim C6, witness: the amended theorem applied to the bytes 00 01 fe,
whose base64 encoding "AAH+" is not hex-readable. -/
theorem c6_encoding_agreement_witness :
    ((∀ x ∈ [0, 1, 254], x < 256) ∧ bytesFromHex (b64encode [0, 1, 254]) = none ∧
      pyStartsWith (pyLower (b64encode [0, 1, 254])) "0x" = false) ∧
    (normalize_secret_to_hex_str (bytesHex [0, 1, 254]) = .ok (bytesHex [0, 1, 254]) ∧
      normalize_secret_to_hex_str (b64encode [0, 1, 254]) = .ok (bytesHex [0, 1, 254])) :=
  ⟨⟨by decide, by decide, by decide⟩,
    c6_encoding_agreement [0, 1, 254] (by decide) (by decide) (by decide)⟩

/-! ## Variant list facts -/

theorem pyLen_pyDrop (t : String) (n : Nat) : pyLen (pyDrop t n) = pyLen t - n := by
  simp [pyLen, pyDrop]

theorem string_ne_of_len {a b : String} (h : pyLen a ≠ pyLen b) : a ≠ b :=
  fun e => h (by rw [e])

theorem all_hex_drop {t : List Char} (n : Nat) (h : t.all isLowerHexChar = true) :
    (t.drop n).all isLowerHexChar = true := by
  rw [List.all_eq_true] at h ⊢
  intro c hc
  exact h c (List.drop_subset n t hc)

theorem pyLower_of_hex {t : String} (h : t.data.all isLowerHexChar = true) :
    pyLower t = t :=
  pyLower_eq_self fun c hc =>
    (hexDigits_clean c (isLowerHexChar_iff.mp (List.all_eq_true.mp h c hc))).1

theorem pyStartsWith_parts {t pre : String} (h : pyStartsWith t pre = true) :
    ∃ r, t.data = pre.data ++ r := by
  unfold pyStartsWith at h
  obtain ⟨r, hr⟩ := List.isPrefixOf_iff_prefix.mp h
  exact ⟨r, hr.symm⟩

theorem data_append_str (a u : String) : (a ++ u).data = a.data ++ u.data := by
  cases a
  cases u
  rfl

theorem addVariant_append {vs : List (String × String)} {name val0 : String}
    (hval : pyLower val0 = val0) (hne : val0 ≠ "") (heven : pyLen val0 % 2 = 0)
    (hhex : val0.data.all isLowerHexChar = true)
    (hmem : val0 ∉ vs.map Prod.snd) :
    addVariant vs name val0 = vs ++ [(name, val0)] := by
  unfold addVariant
  dsimp only
  rw [hval]
  rw [if_neg hne, if_neg (by omega), if_neg (by simp [hhex]), if_neg (by simpa using hmem)]

theorem addVariant_invariant {vs : List (String × String)} (name val0 : String)
    (h : (∀ nv ∈ vs, pyLen nv.2 % 2 = 0 ∧ nv.2.data.all isLowerHexChar = true) ∧
      (vs.map Prod.snd).Nodup) :
    (∀ nv ∈ addVariant vs name val0,
        pyLen nv.2 % 2 = 0 ∧ nv.2.data.all isLowerHexChar = true) ∧
      ((addVariant vs name val0).map Prod.snd).Nodup := by
  unfold addVariant
  dsimp only
  split_ifs with he ho hh hd
  any_goals exact h
  constructor
  · intro nv hnv
    rcases List.mem_append.mp hnv with hm | hm
    · exact h.1 nv hm
    · simp only [List.mem_singleton] at hm
      subst hm
      exact ⟨by dsimp only; omega, by simpa using hh⟩
  · rw [List.map_append, List.nodup_append]
    refine ⟨h.2, List.nodup_singleton _, ?_⟩
    intro a ha hb
    simp only [List.map_cons, List.map_nil, List.mem_singleton] at hb
    subst hb
    refine hd ?_
    simp only [List.contains, List.elem_iff]
    exact ha

theorem string_eq_empty_of_len {a : String} (h : pyLen a = 0) : a = "" := by
  cases a with
  | mk d =>
      cases d with
      | nil => rfl
      | cons c t => simp [pyLen] at h

theorem string_ne_empty_of_len {a : String} (h : pyLen a ≠ 0) : a ≠ "" :=
  fun e => h (by rw [e]; rfl)

theorem dd_data : ("dd" : String).data = ['d', 'd'] := by decide

theorem ee_data : ("ee" : String).data = ['e', 'e'] := by decide

/-! ## Claim C8 -/

/-- Claim C8: every generated variant value is an even-length, pure
lowercase-hex string and the values are pairwise distinct; moreover for a
canonical cleaned secret (nonempty, even length, lowercase hex) the list is
exactly: the original; then, when the length is at least 4 and the secret
starts with one of the two recognized markers, the marker-stripped form;
then, when the length exceeds 34, the marker-swapped form. -/
theorem c8_variant_generation (s : String) :
    (∀ nv ∈ secret_variants s,
        pyLen nv.2 % 2 = 0 ∧ nv.2.data.all isLowerHexChar = true) ∧
    ((secret_variants s).map Prod.snd).Nodup ∧
    (∀ t, t = pyStrip (pyLower s) → t ≠ "" → pyLen t % 2 = 0 →
      t.data.all isLowerHexChar = true →
      secret_variants s =
        [("orig", t)] ++
          (if 4 ≤ pyLen t ∧ (pyStartsWith t "ee" ∨ pyStartsWith t "dd") then
            [("strip_prefix", pyDrop t 2)] else []) ++
          (if pyStartsWith t "ee" ∧ 34 < pyLen t then
            [("ee_to_dd", "dd" ++ pyDrop t 2)] else []) ++
          (if pyStartsWith t "dd" ∧ 34 < pyLen t then
            [("dd_to_ee", "ee" ++ pyDrop t 2)] else [])) := by
  have hinv :
      (∀ nv ∈ secret_variants s,
          pyLen nv.2 % 2 = 0 ∧ nv.2.data.all isLowerHexChar = true) ∧
        ((secret_variants s).map Prod.snd).Nodup := by
    unfold secret_variants
    dsimp only
    split_ifs <;> (repeat apply addVariant_invariant) <;> exact ⟨by simp, by simp⟩
  refine ⟨hinv.1, hinv.2, ?_⟩
  intro t ht hne heven hhex
  have hlow : pyLower t = t := pyLower_of_hex hhex
  have hlen0 : pyLen t ≠ 0 := fun h0 => hne (string_eq_empty_of_len h0)
  have horig : addVariant [] "orig" t = [("orig", t)] := by
    rw [addVariant_append hlow hne heven hhex (by simp)]
    rfl
  unfold secret_variants
  dsimp only
  rw [← ht]
  by_cases h1 : 4 ≤ pyLen t ∧ (pyStartsWith t "ee" ∨ pyStartsWith t "dd")
  · -- the strip variant is generated
    have hulen : pyLen (pyDrop t 2) = pyLen t - 2 := pyLen_pyDrop t 2
    have huhex : (pyDrop t 2).data.all isLowerHexChar = true := all_hex_drop 2 hhex
    have hulow : pyLower (pyDrop t 2) = pyDrop t 2 := pyLower_of_hex huhex
    have hune : pyDrop t 2 ≠ "" := string_ne_empty_of_len (by rw [hulen]; omega)
    have hunet : pyDrop t 2 ≠ t := string_ne_of_len (by rw [hulen]; omega)
    have hstrip : addVariant [("orig", t)] "strip_prefix" (pyDrop t 2) =
        [("orig", t), ("strip_prefix", pyDrop t 2)] := by
      rw [addVariant_append hulow hune (by rw [hulen]; omega) huhex (by simp [hunet])]
      rfl
    by_cases h2 : pyStartsWith t "ee" ∧ 34 < pyLen t
    · obtain ⟨r, hr⟩ := pyStartsWith_parts h2.1
      rw [ee_data] at hr
      by_cases h3 : pyStartsWith t "dd" ∧ 34 < pyLen t
      · obtain ⟨r2, hr2⟩ := pyStartsWith_parts h3.1
        rw [dd_data, hr] at hr2
        simp at hr2
      · have hwd : ("dd" ++ pyDrop t 2).data = 'd' :: 'd' :: (pyDrop t 2).data := by
          rw [data_append_str, dd_data]
          rfl
        have hwlen : pyLen ("dd" ++ pyDrop t 2) = 2 + (pyLen t - 2) := by
          have h2len : pyLen ("dd" ++ pyDrop t 2) = 2 + pyLen (pyDrop t 2) := by
            simp [pyLen, hwd]
            omega
          rw [h2len, hulen]
        have hwhex : ("dd" ++ pyDrop t 2).data.all isLowerHexChar = true := by
          rw [hwd]
          simp only [List.all_cons, Bool.and_eq_true]
          exact ⟨by decide, by decide, huhex⟩
        have hwlow : pyLower ("dd" ++ pyDrop t 2) = "dd" ++ pyDrop t 2 :=
          pyLower_of_hex hwhex
        have hwne : "dd" ++ pyDrop t 2 ≠ "" :=
          string_ne_empty_of_len (by rw [hwlen]; omega)
        have hwnet : "dd" ++ pyDrop t 2 ≠ t := by
          intro e
          have := congrArg String.data e
          rw [hwd, hr] at this
          simp at this
        have hwneu : "dd" ++ pyDrop t 2 ≠ pyDrop t 2 :=
          string_ne_of_len (by rw [hwlen, hulen]; omega)
        have hswap : addVariant [("orig", t), ("strip_prefix", pyDrop t 2)]
            "ee_to_dd" ("dd" ++ pyDrop t 2) =
            [("orig", t), ("strip_prefix", pyDrop t 2),
              ("ee_to_dd", "dd" ++ pyDrop t 2)] := by
          rw [addVariant_append hwlow hwne (by rw [hwlen]; omega) hwhex
            (by simp [hwnet, hwneu])]
          rfl
        rw [if_pos h1, if_pos h2, if_neg h3, horig, hstrip, hswap,
          if_pos h1, if_pos h2, if_neg h3]
        simp
    · by_cases h3 : pyStartsWith t "dd" ∧ 34 < pyLen t
      · obtain ⟨r, hr⟩ := pyStartsWith_parts h3.1
        rw [dd_data] at hr
        have hwd : ("ee" ++ pyDrop t 2).data = 'e' :: 'e' :: (pyDrop t 2).data := by
          rw [data_append_str, ee_data]
          rfl
        have hwlen : pyLen ("ee" ++ pyDrop t 2) = 2 + (pyLen t - 2) := by
          have h2len : pyLen ("ee" ++ pyDrop t 2) = 2 + pyLen (pyDrop t 2) := by
            simp [pyLen, hwd]
            omega
          rw [h2len, hulen]
        have hwhex : ("ee" ++ pyDrop t 2).data.all isLowerHexChar = true := by
          rw [hwd]
          simp only [List.all_cons, Bool.and_eq_true]
          exact ⟨by decide, by decide, huhex⟩
        have hwlow : pyLower ("ee" ++ pyDrop t 2) = "ee" ++ pyDrop t 2 :=
          pyLower_of_hex hwhex
        have hwne : "ee" ++ pyDrop t 2 ≠ "" :=
          string_ne_empty_of_len (by rw [hwlen]; omega)
        have hwnet : "ee" ++ pyDrop t 2 ≠ t := by
          intro e
          have := congrArg String.data e
          rw [hwd, hr] at this
          simp at this
        have hwneu : "ee" ++ pyDrop t 2 ≠ pyDrop t 2 :=
          string_ne_of_len (by rw [hwlen, hulen]; omega)
        have hswap : addVariant [("orig", t), ("strip_prefix", pyDrop t 2)]
            "dd_to_ee" ("ee" ++ pyDrop t 2) =
            [("orig", t), ("strip_prefix", pyDrop t 2),
              ("dd_to_ee", "ee" ++ pyDrop t 2)] := by
          rw [addVariant_append hwlow hwne (by rw [hwlen]; omega) hwhex
            (by simp [hwnet, hwneu])]
          rfl
        rw [if_pos h1, if_neg h2, if_pos h3, horig, hstrip, hswap,
          if_pos h1, if_neg h2, if_pos h3]
        simp
      · rw [if_pos h1, if_neg h2, if_neg h3, horig, hstrip,
          if_pos h1, if_neg h2, if_neg h3]
        simp
  · -- no strip variant: neither swap condition can hold either
    have h2 : ¬ (pyStartsWith t "ee" ∧ 34 < pyLen t) := by
      intro h2
      exact h1 ⟨by omega, Or.inl h2.1⟩
    have h3 : ¬ (pyStartsWith t "dd" ∧ 34 < pyLen t) := by
      intro h3
      exact h1 ⟨by omega, Or.inr h3.1⟩
    rw [if_neg h1, if_neg h2, if_neg h3, horig, if_neg h1, if_neg h2, if_neg h3]
    simp

/-- Claim C8, witness: the theorem applied to a canonical 36-digit
domain-marker secret, for which all three variants appear in order. -/
theorem c8_variant_generation_witness :
    (("ee00112233445566778899aabbccddeeff00" : String) ≠ "" ∧
      pyLen "ee00112233445566778899aabbccddeeff00" % 2 = 0 ∧
      ("ee00112233445566778899aabbccddeeff00" : String).data.all isLowerHexChar = true) ∧
    secret_variants "ee00112233445566778899aabbccddeeff00" =
      [("orig", "ee00112233445566778899aabbccddeeff00"),
        ("strip_prefix", "00112233445566778899aabbccddeeff00"),
        ("ee_to_dd", "dd00112233445566778899aabbccddeeff00")] := by
  constructor
  · exact ⟨by decide, by decide, by decide⟩
  · have h := (c8_variant_generation "ee00112233445566778899aabbccddeeff00").2.2
      "ee00112233445566778899aabbccddeeff00" (by decide) (by decide) (by decide) (by decide)
    rw [h]
    decide

/-! ## Claim C7 -/

theorem printableText_append (l1 l2 : List Nat) :
    printableText (l1 ++ l2) = printableText l1 ++ printableText l2 := by
  simp [printableText]

/-- Claim C7, counterexample: with all 17 filler bytes equal to 0x61 (the
letter a), the secret still classifies as domain-flavored but the extractor
returns "aexample.com" — the 17th filler byte survives in b[17:] — not
"example.com" as the claim asserts for every filler. -/
theorem c7_counterexample :
    looks_like_ee_domain_secret
        (bytesHex (238 :: (List.replicate 17 97 ++ exampleComBytes))) = true ∧
    extract_domain_from_ee_secret
        (bytesHex (238 :: (List.replicate 17 97 ++ exampleComBytes))) =
      some "aexample.com" ∧
    some "aexample.com" ≠ some ("example.com" : String) := by
  refine ⟨by decide, by decide, by decide⟩

/-- Claim C7 (amended): a secret whose bytes are the 0xee marker, 17 filler
bytes and the ASCII text example.com classifies as domain-flavored for
every choice of filler; the extractor returns exactly "example.com"
whenever the 17th filler byte — the one byte of filler the b[17:] slice
keeps — contributes no host-name character: it is filtered out (not
printable, or not a hostname character) or stripped (a dot or a dash). -/
theorem c7_marker_domain (filler : List Nat) (f : Nat)
    (hlen : filler.length = 17) (hdrop : filler.drop 16 = [f])
    (hbytes : ∀ x ∈ filler, x < 256) :
    looks_like_ee_domain_secret
        (bytesHex (238 :: (filler ++ exampleComBytes))) = true ∧
    (((printableText [f]).filter (fun c => hostAllowedChars.contains c) = [] ∨
        f = 46 ∨ f = 45) →
      extract_domain_from_ee_secret
          (bytesHex (238 :: (filler ++ exampleComBytes))) =
        some "example.com") := by
  have hex256 : ∀ x ∈ exampleComBytes, x < 256 := by decide
  have hbbytes : ∀ x ∈ 238 :: (filler ++ exampleComBytes), x < 256 := by
    intro x hx
    rcases List.mem_cons.mp hx with h | h
    · omega
    · rcases List.mem_append.mp h with h | h
      · exact hbytes x h
      · exact hex256 x h
  have hblen : (238 :: (filler ++ exampleComBytes)).length = 29 := by
    simp [hlen, exampleComBytes]
  have hfix : pyStrip (pyLower (bytesHex (238 :: (filler ++ exampleComBytes)))) =
      bytesHex (238 :: (filler ++ exampleComBytes)) := by
    rw [pyLower_bytesHex]
    exact pyStrip_eq_self fun c hc =>
      (hexDigits_clean c (bytesHexChars_mem_any _ c hc)).2.1
  have hdrop17 : (238 :: (filler ++ exampleComBytes)).drop 17 = [f] ++ exampleComBytes := by
    have h1 : (238 :: (filler ++ exampleComBytes)).drop 17 =
        ((238 :: filler) ++ exampleComBytes).drop 17 := by
      simp
    rw [h1, List.drop_append_of_le_length (by simp [hlen])]
    have h2 : (238 :: filler).drop 17 = filler.drop 16 := by
      simp
    rw [h2, hdrop]
  have htext : printableText ((238 :: (filler ++ exampleComBytes)).drop 17) =
      printableText [f] ++ ['e', 'x', 'a', 'm', 'p', 'l', 'e', '.', 'c', 'o', 'm'] := by
    rw [hdrop17, printableText_append]
    congr 1
  constructor
  · unfold looks_like_ee_domain_secret
    dsimp only
    rw [hfix]
    have hstart : pyStartsWith (bytesHex (238 :: (filler ++ exampleComBytes))) "ee" = true := by
      unfold pyStartsWith
      rw [ee_data]
      show List.isPrefixOf _ (bytesHexChars (238 :: (filler ++ exampleComBytes))) = true
      have : bytesHexChars (238 :: (filler ++ exampleComBytes)) =
          'e' :: 'e' :: bytesHexChars (filler ++ exampleComBytes) := by
        show hexDigitChar (238 / 16) :: hexDigitChar (238 % 16) :: _ = _
        norm_num
        decide
      rw [this]
      simp [List.isPrefixOf]
    have hlen58 : pyLen (bytesHex (238 :: (filler ++ exampleComBytes))) = 58 := by
      show (bytesHexChars _).length = 58
      rw [bytesHexChars_length, hblen]
    rw [hstart, hlen58]
    simp only [Bool.not_true, Bool.false_eq_true, if_false]
    rw [bytesFromHex_bytesHex hbbytes]
    dsimp only
    rw [if_neg (show ¬ (238 :: (filler ++ exampleComBytes)).length ≤ 17 by
      rw [hblen]; omega)]
    rw [htext]
    rw [if_neg (by omega : ¬ (58 : Nat) < 40)]
    rw [if_neg (show ¬ ¬ True from not_not_intro trivial)]
    rw [Bool.and_eq_true]
    constructor
    · refine List.elem_iff.mpr ?_
      simp
    · refine List.any_eq_true.mpr ⟨'e', ?_, by decide⟩
      simp
  · intro hcase
    unfold extract_domain_from_ee_secret
    rw [hfix, bytesFromHex_bytesHex hbbytes]
    dsimp only
    rw [if_neg (show ¬ (238 :: (filler ++ exampleComBytes)).length ≤ 17 by
      rw [hblen]; omega)]
    rw [htext, List.filter_append]
    rcases hcase with hpf | hf | hf
    · rw [hpf]
      decide
    · subst hf
      decide
    · subst hf
      decide

/-- Claim C7, witness: the amended theorem applied with 17 zero filler
bytes, whose last byte is not printable. -/
theorem c7_marker_domain_witness :
    ((List.replicate 17 (0 : Nat)).length = 17 ∧
      (List.replicate 17 (0 : Nat)).drop 16 = [0] ∧
      (∀ x ∈ List.replicate 17 (0 : Nat), x < 256) ∧
      ((printableText [0]).filter (fun c => hostAllowedChars.contains c) = [] ∨
        (0 : Nat) = 46 ∨ (0 : Nat) = 45)) ∧
    (looks_like_ee_domain_secret
        (bytesHex (238 :: (List.replicate 17 0 ++ exampleComBytes))) = true ∧
      extract_domain_from_ee_secret
          (bytesHex (238 :: (List.replicate 17 0 ++ exampleComBytes))) =
        some "example.com") := by
  refine ⟨⟨by decide, by decide, by decide, by decide⟩, ?_, ?_⟩
  · exact (c7_marker_domain (List.replicate 17 0) 0 (by decide) (by decide) (by decide)).1
  · exact (c7_marker_domain (List.replicate 17 0) 0 (by decide) (by decide)
      (by decide)).2 (by decide)

/-! ## Telethon scan facts -/

theorem pyOr_none_left (b : Option String) : pyOr none b = b := rfl

theorem telethonScan_all_fail (probe : String → String → Bool × Bool × Option String) :
    ∀ (L : List (String × String × String)) (le : Option String),
      (∀ c ∈ L, (probe c.1 c.2.2).1 = false) →
      (telethonScan probe L le).winner = none ∧
        (telethonScan probe L le).lastErr =
          (match L.getLast? with
            | none => le
            | some c => (probe c.1 c.2.2).2.2) ∧
        (telethonScan probe L le).attempted = L.map (fun c => (c.1, c.2.1)) := by
  intro L
  induction L with
  | nil => intro le h; exact ⟨rfl, rfl, rfl⟩
  | cons c rest ih =>
      intro le h
      have hc := h c (List.mem_cons_self _ _)
      have ihr := ih ((probe c.1 c.2.2).2.2) (fun x hx => h x (List.mem_cons_of_mem _ hx))
      unfold telethonScan
      simp only [hc, Bool.false_eq_true, if_false]
      refine ⟨ihr.1, ?_, ?_⟩
      · rw [ihr.2.1]
        cases rest with
        | nil => rfl
        | cons d t => rfl
      · rw [ihr.2.2]
        rfl

theorem telethonScan_first (probe : String → String → Bool × Bool × Option String) :
    ∀ (L : List (String × String × String)) (le : Option String) (i : Nat)
      (hi : i < L.length),
      (probe (L.get ⟨i, hi⟩).1 (L.get ⟨i, hi⟩).2.2).1 = true →
      (∀ j (hj : j < L.length), j < i →
        (probe (L.get ⟨j, hj⟩).1 (L.get ⟨j, hj⟩).2.2).1 = false) →
      (telethonScan probe L le).winner =
        some ((L.get ⟨i, hi⟩).1, (L.get ⟨i, hi⟩).2.1,
          (probe (L.get ⟨i, hi⟩).1 (L.get ⟨i, hi⟩).2.2).2.1,
          (probe (L.get ⟨i, hi⟩).1 (L.get ⟨i, hi⟩).2.2).2.2) ∧
        (telethonScan probe L le).attempted =
          (L.take (i + 1)).map (fun c => (c.1, c.2.1)) := by
  intro L
  induction L with
  | nil => intro le i hi; exact absurd hi (by simp)
  | cons c rest ih =>
      intro le i hi hconn hbefore
      cases i with
      | zero =>
          have hconn2 : (probe c.1 c.2.2).1 = true := hconn
          unfold telethonScan
          simp only [hconn2, if_true]
          exact ⟨rfl, rfl⟩
      | succ i0 =>
          have hc : (probe c.1 c.2.2).1 = false :=
            hbefore 0 (by simp) (Nat.succ_pos i0)
          have ihr := ih ((probe c.1 c.2.2).2.2) i0 (by simpa using hi) hconn
            (fun j hj hji => hbefore (j + 1) (by simpa using hj) (by omega))
          unfold telethonScan
          simp only [hc, Bool.false_eq_true, if_false]
          refine ⟨ihr.1, ?_⟩
          rw [ihr.2]
          rfl

/-- The entry into the Telethon stage when the secret is not
domain-flavored: tls_err is None and the result is assembled from the
scan of the combination list. -/
theorem check_one_proxy_not_ee (tls : String → Bool × Option String)
    (probe : String → String → Bool × Bool × Option String)
    (modes : List String) (secret : String) (ms : Nat)
    (hee : looks_like_ee_domain_secret (pyStrip (pyLower secret)) = false) :
    check_one_proxy tls probe modes secret ms =
      (match (telethonScan probe (proxyCombos modes secret) none).winner with
        | some w =>
            ({ ok := true, telegram_ok := w.2.2.1, mode := some w.1,
               secret_variant := some w.2.1, method := "telethon",
               latency_ms := some ms,
               error := if w.2.2.1 then none else w.2.2.2 },
              (telethonScan probe (proxyCombos modes secret) none).attempted)
        | none =>
            ({ ok := false, telegram_ok := false, mode := none, secret_variant := none,
               method := "telethon", latency_ms := some ms,
               error := (telethonScan probe (proxyCombos modes secret) none).lastErr },
              (telethonScan probe (proxyCombos modes secret) none).attempted)) := by
  unfold check_one_proxy
  dsimp only
  rw [hee]
  unfold proxyCombos
  cases (telethonScan probe
      (comboList modes (secret_variants (pyStrip (pyLower secret)))) none).winner with
  | none => rfl
  | some w => rfl

/-! ## Claim C4 -/

/-- Claim C4: in the full protocol probe the framing modes are iterated in
priority order crossed with the secret variants in generation order
(proxyCombos); the first combination whose session establishment succeeds
determines the result — reachable, the winning mode and variant names,
protocol-confirmed exactly when its round trip succeeded, and the
round-trip error recorded when unconfirmed — and no later combination is
attempted even when the round trip failed; when no combination connects
the result is the failed shape with no mode or variant, after every
combination was attempted. -/
theorem c4_protocol_probe (tls : String → Bool × Option String)
    (probe : String → String → Bool × Bool × Option String)
    (modes : List String) (secret : String) (ms : Nat)
    (hee : looks_like_ee_domain_secret (pyStrip (pyLower secret)) = false) :
    (∀ i (hi : i < (proxyCombos modes secret).length),
      (probe ((proxyCombos modes secret).get ⟨i, hi⟩).1
          ((proxyCombos modes secret).get ⟨i, hi⟩).2.2).1 = true →
      (∀ j (hj : j < (proxyCombos modes secret).length), j < i →
        (probe ((proxyCombos modes secret).get ⟨j, hj⟩).1
            ((proxyCombos modes secret).get ⟨j, hj⟩).2.2).1 = false) →
      check_one_proxy tls probe modes secret ms =
        ({ ok := true,
           telegram_ok := (probe ((proxyCombos modes secret).get ⟨i, hi⟩).1
              ((proxyCombos modes secret).get ⟨i, hi⟩).2.2).2.1,
           mode := some ((proxyCombos modes secret).get ⟨i, hi⟩).1,
           secret_variant := some ((proxyCombos modes secret).get ⟨i, hi⟩).2.1,
           method := "telethon", latency_ms := some ms,
           error :=
             if (probe ((proxyCombos modes secret).get ⟨i, hi⟩).1
                  ((proxyCombos modes secret).get ⟨i, hi⟩).2.2).2.1 then none
             else (probe ((proxyCombos modes secret).get ⟨i, hi⟩).1
                ((proxyCombos modes secret).get ⟨i, hi⟩).2.2).2.2 },
          ((proxyCombos modes secret).take (i + 1)).map (fun c => (c.1, c.2.1)))) ∧
    ((∀ c ∈ proxyCombos modes secret, (probe c.1 c.2.2).1 = false) →
      check_one_proxy tls probe modes secret ms =
        ({ ok := false, telegram_ok := false, mode := none, secret_variant := none,
           method := "telethon", latency_ms := some ms,
           error :=
             (match (proxyCombos modes secret).getLast? with
               | none => none
               | some c => (probe c.1 c.2.2).2.2) },
          (proxyCombos modes secret).map (fun c => (c.1, c.2.1)))) := by
  constructor
  · intro i hi hconn hbefore
    have hscan := telethonScan_first probe (proxyCombos modes secret) none i hi hconn hbefore
    rw [check_one_proxy_not_ee tls probe modes secret ms hee, hscan.1]
    dsimp only
    rw [hscan.2]
  · intro hall
    have hscan := telethonScan_all_fail probe (proxyCombos modes secret) none hall
    rw [check_one_proxy_not_ee tls probe modes secret ms hee, hscan.1]
    dsimp only
    rw [hscan.2.1, hscan.2.2]

/-- Claim C4, witness: two framing modes and one variant; the probe
connects only on the second mode, whose round trip fails, and the result
still carries that mode with ok true, telegram_ok false and the round-trip
error, having attempted exactly the two combinations. -/
theorem c4_protocol_probe_witness :
    (looks_like_ee_domain_secret (pyStrip (pyLower "abcd")) = false ∧
      (1 : Nat) < (proxyCombos ["M1", "M2"] "abcd").length) ∧
    check_one_proxy (fun _ => (false, none))
        (fun m _ => if m = "M2" then (true, false, some "rpc fail")
          else (false, false, some "conn fail"))
        ["M1", "M2"] "abcd" 3 =
      ({ ok := true, telegram_ok := false, mode := some "M2",
         secret_variant := some "orig", method := "telethon",
         latency_ms := some 3, error := some "rpc fail" },
        [("M1", "orig"), ("M2", "orig")]) := by
  refine ⟨⟨by decide, by decide⟩, ?_⟩
  have h := (c4_protocol_probe (fun _ => (false, none))
      (fun m _ => if m = "M2" then (true, false, some "rpc fail")
        else (false, false, some "conn fail"))
      ["M1", "M2"] "abcd" 3 (by decide)).1 1 (by decide) (by decide) (by decide)
  rw [h]
  decide

/-! ## Claim C10 -/

/-- Claim C10: when the cleaned secret classifies as domain-flavored, a
domain is extracted and the decoy TLS/SNI handshake probe succeeds, the
per-proxy check returns immediately with the reachability flag true, the
protocol-confirmed flag false, no framing mode, secret variant label orig
and the tls_sni method tag carrying the extracted domain; the Telethon
combination loop is never entered — no combination is attempted. -/
theorem c10_decoy_shortcut (tls : String → Bool × Option String)
    (probe : String → String → Bool × Bool × Option String)
    (modes : List String) (secret : String) (ms : Nat) (d : String)
    (h1 : looks_like_ee_domain_secret (pyStrip (pyLower secret)) = true)
    (h2 : extract_domain_from_ee_secret (pyStrip (pyLower secret)) = some d)
    (h3 : (tls d).1 = true) :
    check_one_proxy tls probe modes secret ms =
      ({ ok := true, telegram_ok := false, mode := none,
         secret_variant := some "orig", method := "tls_sni:" ++ d,
         latency_ms := some ms, error := none }, []) := by
  unfold check_one_proxy
  dsimp only
  rw [h1, if_pos rfl, h2]
  dsimp only
  rw [h3, if_pos rfl]

/-- Claim C10, witness: the theorem applied to the marker + 17 zero filler
+ example.com secret with an always-succeeding TLS oracle and an
always-connecting protocol oracle, which is nevertheless never consulted. -/
theorem c10_decoy_shortcut_witness :
    (looks_like_ee_domain_secret
        (pyStrip (pyLower (bytesHex (238 :: (List.replicate 17 0 ++ exampleComBytes))))) =
          true ∧
      extract_domain_from_ee_secret
          (pyStrip (pyLower (bytesHex (238 :: (List.replicate 17 0 ++ exampleComBytes))))) =
        some "example.com" ∧
      ((fun (_ : String) => (true, (none : Option String))) "example.com").1 = true) ∧
    check_one_proxy (fun _ => (true, none)) (fun _ _ => (true, true, none)) ["MA"]
        (bytesHex (238 :: (List.replicate 17 0 ++ exampleComBytes))) 7 =
      ({ ok := true, telegram_ok := false, mode := none,
         secret_variant := some "orig", method := "tls_sni:example.com",
         latency_ms := some 7, error := none }, []) := by
  refine ⟨⟨by decide, by decide, by decide⟩, ?_⟩
  have h := c10_decoy_shortcut (fun _ => (true, none)) (fun _ _ => (true, true, none))
    ["MA"] (bytesHex (238 :: (List.replicate 17 0 ++ exampleComBytes))) 7 "example.com"
    (by decide) (by decide) (by decide)
  rw [h]
  decide

/-! ## State table facts -/

theorem lookupD_updateA_self : ∀ (m : List (String × Nat)) (k : String) (v d : Nat),
    lookupD (updateA m k v) k d = v := by
  intro m
  induction m with
  | nil => intro k v d; simp [updateA, lookupD]
  | cons a rest ih =>
      intro k v d
      by_cases h : a.1 = k
      · simp [updateA, h, lookupD]
      · simp [updateA, h, lookupD, ih]

theorem lookupD_updateA_other : ∀ (m : List (String × Nat)) (k k2 : String) (v d : Nat),
    k ≠ k2 → lookupD (updateA m k v) k2 d = lookupD m k2 d := by
  intro m
  induction m with
  | nil => intro k k2 v d hne; simp [updateA, lookupD, hne]
  | cons a rest ih =>
      intro k k2 v d hne
      have hne2 : ¬ (k2 = k) := fun e => hne e.symm
      by_cases h : a.1 = k
      · simp [updateA, h, lookupD, hne]
      · by_cases h2 : a.1 = k2
        · simp [updateA, h, lookupD, h2, hne2]
        · simp [updateA, h, lookupD, h2, ih _ _ _ _ hne]

theorem lookupOpt_updateA_self : ∀ (m : List (String × Nat)) (k : String) (v : Nat),
    lookupOpt (updateA m k v) k = some v := by
  intro m
  induction m with
  | nil => intro k v; simp [updateA, lookupOpt]
  | cons a rest ih =>
      intro k v
      by_cases h : a.1 = k
      · simp [updateA, h, lookupOpt]
      · simp [updateA, h, lookupOpt, ih]

theorem lookupOpt_updateA_other : ∀ (m : List (String × Nat)) (k k2 : String) (v : Nat),
    k ≠ k2 → lookupOpt (updateA m k v) k2 = lookupOpt m k2 := by
  intro m
  induction m with
  | nil => intro k k2 v hne; simp [updateA, lookupOpt, hne]
  | cons a rest ih =>
      intro k k2 v hne
      have hne2 : ¬ (k2 = k) := fun e => hne e.symm
      by_cases h : a.1 = k
      · simp [updateA, h, lookupOpt, hne]
      · by_cases h2 : a.1 = k2
        · simp [updateA, h, lookupOpt, h2, hne2]
        · simp [updateA, h, lookupOpt, h2, ih _ _ _ hne]

/-! ## Merge loop characterization -/

theorem cycleLoop_aliveL (now : Nat) :
    ∀ (pairs : List (Proxy × CheckResult)) (st : CycleState),
      (cycleLoop now st pairs).aliveL =
        (pairs.filter (fun pr => pr.2.ok)).map (fun pr => proxy_key_ipport pr.1) := by
  intro pairs
  induction pairs with
  | nil => intro st; rfl
  | cons pr rest ih =>
      intro st
      unfold cycleLoop
      dsimp only
      cases hok : pr.2.ok <;> simp [hok, List.filter_cons, ih]

theorem cycleLoop_deadL (now : Nat) :
    ∀ (pairs : List (Proxy × CheckResult)) (st : CycleState),
      (cycleLoop now st pairs).deadL =
        (pairs.filter (fun pr => !pr.2.ok)).map (fun pr => proxy_key_ipport pr.1) := by
  intro pairs
  induction pairs with
  | nil => intro st; rfl
  | cons pr rest ih =>
      intro st
      unfold cycleLoop
      dsimp only
      cases hok : pr.2.ok <;> simp [hok, List.filter_cons, ih]

theorem cycleLoop_aliveC (now : Nat) :
    ∀ (pairs : List (Proxy × CheckResult)) (st : CycleState),
      (cycleLoop now st pairs).aliveC = pairs.countP (fun pr => pr.2.ok) := by
  intro pairs
  induction pairs with
  | nil => intro st; rfl
  | cons pr rest ih =>
      intro st
      unfold cycleLoop
      dsimp only
      cases hok : pr.2.ok <;> simp [hok, List.countP_cons, ih]

theorem cycleLoop_statuses_core (now : Nat) :
    ∀ (pairs : List (Proxy × CheckResult)) (st : CycleState),
      (cycleLoop now st pairs).statuses.map
          (fun x => (x.ok, x.telegram_ok, x.latency_ms)) =
        pairs.map (fun pr => (pr.2.ok, pr.2.telegram_ok, pr.2.latency_ms)) := by
  intro pairs
  induction pairs with
  | nil => intro st; rfl
  | cons pr rest ih =>
      intro st
      unfold cycleLoop
      dsimp only
      simp [ih]

theorem cycleLoop_state_untouched (now : Nat) :
    ∀ (pairs : List (Proxy × CheckResult)) (st : CycleState) (k : String) (d : Nat),
      (∀ pr ∈ pairs, stateKey pr.1 ≠ k) →
      lookupD (cycleLoop now st pairs).state.fail_streak k d =
          lookupD st.fail_streak k d ∧
        lookupOpt (cycleLoop now st pairs).state.last_ok k = lookupOpt st.last_ok k := by
  intro pairs
  induction pairs with
  | nil => intro st k d h; exact ⟨rfl, rfl⟩
  | cons pr rest ih =>
      intro st k d h
      have hne := h pr (List.mem_cons_self _ _)
      unfold cycleLoop
      dsimp only
      cases hok : pr.2.ok
      · simp only [hok, Bool.false_eq_true, if_false]
        have ihr := ih
          ⟨updateA st.fail_streak (stateKey pr.1)
              (lookupD st.fail_streak (stateKey pr.1) 0 + 1), st.last_ok⟩
          k d (fun x hx => h x (List.mem_cons_of_mem _ hx))
        rw [ihr.1, ihr.2]
        exact ⟨lookupD_updateA_other _ _ _ _ _ hne, rfl⟩
      · simp only [hok, if_true]
        have ihr := ih
          ⟨updateA st.fail_streak (stateKey pr.1) 0,
            updateA st.last_ok (stateKey pr.1) now⟩
          k d (fun x hx => h x (List.mem_cons_of_mem _ hx))
        rw [ihr.1, ihr.2]
        exact ⟨lookupD_updateA_other _ _ _ _ _ hne,
          lookupOpt_updateA_other _ _ _ _ hne⟩

theorem cycleLoop_state_at (now : Nat) :
    ∀ (pairs : List (Proxy × CheckResult)) (st : CycleState) (p : Proxy)
      (r : CheckResult),
      (p, r) ∈ pairs →
      (pairs.map (fun pr => stateKey pr.1)).Nodup →
      (r.ok = true →
        lookupD (cycleLoop now st pairs).state.fail_streak (stateKey p) 0 = 0 ∧
          lookupOpt (cycleLoop now st pairs).state.last_ok (stateKey p) = some now) ∧
      (r.ok = false →
        lookupD (cycleLoop now st pairs).state.fail_streak (stateKey p) 0 =
            lookupD st.fail_streak (stateKey p) 0 + 1 ∧
          lookupOpt (cycleLoop now st pairs).state.last_ok (stateKey p) =
            lookupOpt st.last_ok (stateKey p)) := by
  intro pairs
  induction pairs with
  | nil => intro st p r hmem; exact absurd hmem (by simp)
  | cons q rest ih =>
      intro st p r hmem hnd
      rcases List.mem_cons.mp hmem with heq | hmem2
      · -- the pair of interest is the head
        have hq1 : q.1 = p := by rw [← heq]
        have hq2 : q.2 = r := by rw [← heq]
        have hrest : ∀ pr ∈ rest, stateKey pr.1 ≠ stateKey p := by
          intro pr hpr e
          exact (List.nodup_cons.mp hnd).1 (by
            show stateKey q.1 ∈ List.map (fun pr => stateKey pr.1) rest
            rw [hq1]
            exact List.mem_map.mpr ⟨pr, hpr, e⟩)
        unfold cycleLoop
        dsimp only
        rw [hq1, hq2]
        cases hok : r.ok
        · simp only [Bool.false_eq_true, if_false]
          have hu := cycleLoop_state_untouched now rest
            ⟨updateA st.fail_streak (stateKey p)
                (lookupD st.fail_streak (stateKey p) 0 + 1), st.last_ok⟩
            (stateKey p) 0 hrest
          refine ⟨fun h => absurd h (by simp), fun _ => ?_⟩
          rw [hu.1, hu.2]
          exact ⟨lookupD_updateA_self _ _ _ _, rfl⟩
        · simp only [if_true]
          have hu := cycleLoop_state_untouched now rest
            ⟨updateA st.fail_streak (stateKey p) 0,
              updateA st.last_ok (stateKey p) now⟩
            (stateKey p) 0 hrest
          refine ⟨fun _ => ?_, fun h => absurd h (by simp)⟩
          rw [hu.1, hu.2]
          exact ⟨lookupD_updateA_self _ _ _ _, lookupOpt_updateA_self _ _ _⟩
      · -- the pair of interest is further down
        have hkne : stateKey q.1 ≠ stateKey p := by
          intro e
          exact (List.nodup_cons.mp hnd).1 (by
            show stateKey q.1 ∈ List.map (fun pr => stateKey pr.1) rest
            rw [e]
            exact List.mem_map.mpr ⟨(p, r), hmem2, rfl⟩)
        unfold cycleLoop
        dsimp only
        cases hok : q.2.ok
        · simp only [hok, Bool.false_eq_true, if_false]
          have ihr := ih
            ⟨updateA st.fail_streak (stateKey q.1)
                (lookupD st.fail_streak (stateKey q.1) 0 + 1), st.last_ok⟩
            p r hmem2 (List.nodup_cons.mp hnd).2
          refine ⟨ihr.1, fun hro => ?_⟩
          have h2 := ihr.2 hro
          rw [h2.1, h2.2]
          dsimp only
          rw [lookupD_updateA_other _ _ _ _ _ hkne]
          exact ⟨rfl, rfl⟩
        · simp only [hok, if_true]
          have ihr := ih
            ⟨updateA st.fail_streak (stateKey q.1) 0,
              updateA st.last_ok (stateKey q.1) now⟩
            p r hmem2 (List.nodup_cons.mp hnd).2
          refine ⟨ihr.1, fun hro => ?_⟩
          have h2 := ihr.2 hro
          rw [h2.1, h2.2]
          dsimp only
          rw [lookupD_updateA_other _ _ _ _ _ hkne,
            lookupOpt_updateA_other _ _ _ _ hkne]
          exact ⟨rfl, rfl⟩

/-- The state component of a snapshot build is the merge-loop state whether
or not the sorts succeed (the State dict mutations happen before the
sorts). -/
theorem buildSnapshot_state (proxies : List Proxy) (results : List CheckResult)
    (now : Nat) (st : CycleState) :
    (buildSnapshot proxies results now st).1 =
      (cycleLoop now st (proxies.zip results)).state := by
  unfold buildSnapshot
  dsimp only
  cases sortIpport (cycleLoop now st (proxies.zip results)).aliveL <;>
    cases sortIpport (cycleLoop now st (proxies.zip results)).deadL <;> rfl

/-! ## Claim C3 -/

/-- Claim C3: for a proxy identity keyed by server, port and the first 8
hex digits of the secret, with pairwise-distinct keys across the cycle
pairs: after a cycle whose result for that identity is a success the
stored fail_streak is 0 and last_ok is that cycle epoch; after a failing
cycle fail_streak is its previous value plus one and last_ok is unchanged;
hence N consecutive failing cycles add N to the streak — exactly N from
streak 0 — and last_ok never moves on failing cycles. -/
theorem c3_streak_tracking (proxies : List Proxy) (results : List CheckResult)
    (now : Nat) (st : CycleState) (p : Proxy) (r : CheckResult)
    (hmem : (p, r) ∈ proxies.zip results)
    (hnd : ((proxies.zip results).map (fun pr => stateKey pr.1)).Nodup) :
    (r.ok = true →
      lookupD (buildSnapshot proxies results now st).1.fail_streak (stateKey p) 0 = 0 ∧
        lookupOpt (buildSnapshot proxies results now st).1.last_ok (stateKey p) =
          some now) ∧
    (r.ok = false →
      lookupD (buildSnapshot proxies results now st).1.fail_streak (stateKey p) 0 =
          lookupD st.fail_streak (stateKey p) 0 + 1 ∧
        lookupOpt (buildSnapshot proxies results now st).1.last_ok (stateKey p) =
          lookupOpt st.last_ok (stateKey p)) ∧
    (r.ok = false → ∀ N st0,
      lookupD
          ((fun s0 => (refresherCycle proxies (.ok results) now s0).1)^[N] st0).fail_streak
          (stateKey p) 0 = lookupD st0.fail_streak (stateKey p) 0 + N ∧
        lookupOpt
            ((fun s0 => (refresherCycle proxies (.ok results) now s0).1)^[N] st0).last_ok
            (stateKey p) = lookupOpt st0.last_ok (stateKey p)) ∧
    (r.ok = false → ∀ N st0,
      lookupD st0.fail_streak (stateKey p) 0 = 0 →
      lookupD
          ((fun s0 => (refresherCycle proxies (.ok results) now s0).1)^[N] st0).fail_streak
          (stateKey p) 0 = N) := by
  have hstep : ∀ s0 : CycleState, r.ok = false →
      lookupD ((refresherCycle proxies (.ok results) now s0).1).fail_streak
          (stateKey p) 0 = lookupD s0.fail_streak (stateKey p) 0 + 1 ∧
        lookupOpt ((refresherCycle proxies (.ok results) now s0).1).last_ok
          (stateKey p) = lookupOpt s0.last_ok (stateKey p) := by
    intro s0 hro
    have h := (cycleLoop_state_at now (proxies.zip results) s0 p r hmem hnd).2 hro
    have he : (refresherCycle proxies (.ok results) now s0).1 =
        (buildSnapshot proxies results now s0).1 := rfl
    rw [he, buildSnapshot_state]
    exact h
  have hiter : r.ok = false → ∀ N st0,
      lookupD
          ((fun s0 => (refresherCycle proxies (.ok results) now s0).1)^[N] st0).fail_streak
          (stateKey p) 0 = lookupD st0.fail_streak (stateKey p) 0 + N ∧
        lookupOpt
            ((fun s0 => (refresherCycle proxies (.ok results) now s0).1)^[N] st0).last_ok
            (stateKey p) = lookupOpt st0.last_ok (stateKey p) := by
    intro hro N
    induction N with
    | zero => intro st0; simp
    | succ n ihN =>
        intro st0
        rw [Function.iterate_succ_apply]
        have h1 := ihN ((fun s0 => (refresherCycle proxies (.ok results) now s0).1) st0)
        have h2 := hstep st0 hro
        constructor
        · rw [h1.1]
          dsimp only
          rw [h2.1]
          omega
        · rw [h1.2]
          dsimp only
          rw [h2.2]
  refine ⟨?_, ?_, hiter, ?_⟩
  · intro hro
    have h := (cycleLoop_state_at now (proxies.zip results) st p r hmem hnd).1 hro
    rw [buildSnapshot_state]
    exact h
  · intro hro
    have h := (cycleLoop_state_at now (proxies.zip results) st p r hmem hnd).2 hro
    rw [buildSnapshot_state]
    exact h
  · intro hro N st0 h0
    have h := (hiter hro N st0).1
    rw [h, h0]
    omega

/-- Claim C3, witness: one proxy failing each cycle; a single merge adds
one to the streak and three iterated cycles from a fresh state yield a
streak of exactly three with last_ok still unset. -/
theorem c3_streak_tracking_witness :
    ((((⟨"p1", "1.2.3.4", 443, "dd00112233"⟩ : Proxy),
        (⟨false, false, none, none, "telethon", some 5, some "e"⟩ : CheckResult)) ∈
        ([⟨"p1", "1.2.3.4", 443, "dd00112233"⟩] : List Proxy).zip
          [⟨false, false, none, none, "telethon", some 5, some "e"⟩]) ∧
      ((([⟨"p1", "1.2.3.4", 443, "dd00112233"⟩] : List Proxy).zip
          ([⟨false, false, none, none, "telethon", some 5, some "e"⟩] :
            List CheckResult)).map (fun pr => stateKey pr.1)).Nodup) ∧
    lookupD
        ((fun s0 => (refresherCycle [⟨"p1", "1.2.3.4", 443, "dd00112233"⟩]
            (.ok [⟨false, false, none, none, "telethon", some 5, some "e"⟩]) 100 s0).1)^[3]
          ⟨[], []⟩).fail_streak
        (stateKey ⟨"p1", "1.2.3.4", 443, "dd00112233"⟩) 0 = 3 := by
  refine ⟨⟨by decide, by decide⟩, ?_⟩
  exact (c3_streak_tracking [⟨"p1", "1.2.3.4", 443, "dd00112233"⟩]
    [⟨false, false, none, none, "telethon", some 5, some "e"⟩] 100 ⟨[], []⟩
    ⟨"p1", "1.2.3.4", 443, "dd00112233"⟩
    ⟨false, false, none, none, "telethon", some 5, some "e"⟩
    (by decide) (by decide)).2.2.2 (by decide) 3 ⟨[], []⟩ (by decide)

/-! ## Ipport ordering facts -/

theorem natListLe_total : ∀ a b : List Nat, natListLe a b = true ∨ natListLe b a = true := by
  intro a
  induction a with
  | nil => intro b; exact Or.inl rfl
  | cons x xs ih =>
      intro b
      cases b with
      | nil => exact Or.inr rfl
      | cons y ys =>
          by_cases hxy : x < y
          · exact Or.inl (by simp [natListLe, hxy])
          · by_cases hyx : y < x
            · exact Or.inr (by simp [natListLe, hyx])
            · have hxe : x = y := by omega
              subst hxe
              rcases ih ys with h | h
              · exact Or.inl (by simp [natListLe, h])
              · exact Or.inr (by simp [natListLe, h])

theorem natListLe_trans : ∀ a b c : List Nat,
    natListLe a b = true → natListLe b c = true → natListLe a c = true := by
  intro a
  induction a with
  | nil => intro b c h1 h2; rfl
  | cons x xs ih =>
      intro b c h1 h2
      cases b with
      | nil => simp [natListLe] at h1
      | cons y ys =>
          cases c with
          | nil => simp [natListLe] at h2
          | cons z zs =>
              simp only [natListLe, Bool.or_eq_true, Bool.and_eq_true,
                decide_eq_true_eq] at h1 h2 ⊢
              rcases h1 with h1 | ⟨he1, h1⟩
              · rcases h2 with h2 | ⟨he2, h2⟩
                · exact Or.inl (by omega)
                · exact Or.inl (by omega)
              · rcases h2 with h2 | ⟨he2, h2⟩
                · exact Or.inl (by omega)
                · exact Or.inr ⟨by omega, ih ys zs h1 h2⟩

theorem natListLe_antisymm : ∀ a b : List Nat,
    natListLe a b = true → natListLe b a = true → a = b := by
  intro a
  induction a with
  | nil =>
      intro b h1 h2
      cases b with
      | nil => rfl
      | cons y ys => simp [natListLe] at h2
  | cons x xs ih =>
      intro b h1 h2
      cases b with
      | nil => simp [natListLe] at h1
      | cons y ys =>
          simp only [natListLe, Bool.or_eq_true, Bool.and_eq_true,
            decide_eq_true_eq] at h1 h2
          rcases h1 with h1 | ⟨he1, h1⟩
          · rcases h2 with h2 | ⟨he2, h2⟩
            · omega
            · omega
          · rcases h2 with h2 | ⟨he2, h2⟩
            · omega
            · rw [he1, ih ys h1 h2]

instance : IsTotal String ipLe := by
  refine ⟨fun a b => ?_⟩
  unfold ipLe ipKeyLe
  by_cases he : (keyD a).1 = (keyD b).1
  · rcases Nat.le_total (keyD a).2 (keyD b).2 with h | h
    · exact Or.inl (Or.inl ⟨he, h⟩)
    · exact Or.inr (Or.inl ⟨he.symm, h⟩)
  · rcases natListLe_total (keyD a).1 (keyD b).1 with h | h
    · exact Or.inl (Or.inr ⟨he, h⟩)
    · exact Or.inr (Or.inr ⟨fun e => he e.symm, h⟩)

instance : IsTrans String ipLe := by
  refine ⟨fun a b c h1 h2 => ?_⟩
  unfold ipLe ipKeyLe at h1 h2 ⊢
  rcases h1 with ⟨he1, hp1⟩ | ⟨hne1, hl1⟩
  · rcases h2 with ⟨he2, hp2⟩ | ⟨hne2, hl2⟩
    · exact Or.inl ⟨he1.trans he2, hp1.trans hp2⟩
    · exact Or.inr ⟨fun e => hne2 (he1 ▸ e), he1 ▸ hl2⟩
  · rcases h2 with ⟨he2, hp2⟩ | ⟨hne2, hl2⟩
    · exact Or.inr ⟨fun e => hne1 (e ▸ he2.symm), he2 ▸ hl1⟩
    · refine Or.inr ⟨?_, natListLe_trans _ _ _ hl1 hl2⟩
      intro e
      have h3 := hl2
      rw [← e] at h3
      exact hne1 (natListLe_antisymm _ _ hl1 h3)

theorem sortIpport_some {l : List String}
    (h : ∀ x ∈ l, (ipport_sort_key x).isSome = true) :
    sortIpport l = some (List.insertionSort ipLe l.dedup) := by
  unfold sortIpport
  rw [if_pos (List.all_eq_true.mpr h)]

/-- The snapshot published by a merge whose server strings all have sort
keys, spelled out. -/
theorem buildSnapshot_ok (proxies : List Proxy) (results : List CheckResult)
    (now : Nat) (st : CycleState)
    (hkeys : ∀ p ∈ proxies, (ipport_sort_key (proxy_key_ipport p)).isSome = true) :
    (buildSnapshot proxies results now st).2 = .ok
      { timestamp := now, metaError := none,
        metaTotal := some (cycleLoop now st (proxies.zip results)).statuses.length,
        metaAlive := some (cycleLoop now st (proxies.zip results)).aliveC,
        metaTelegramOk := some (cycleLoop now st (proxies.zip results)).tgC,
        alive_list := List.insertionSort ipLe
          (cycleLoop now st (proxies.zip results)).aliveL.dedup,
        alive_count := (cycleLoop now st (proxies.zip results)).aliveC,
        dead_list := List.insertionSort ipLe
          (cycleLoop now st (proxies.zip results)).deadL.dedup,
        dead_count := (cycleLoop now st (proxies.zip results)).deadL.length,
        proxies := List.insertionSort statusLe
          (cycleLoop now st (proxies.zip results)).statuses } := by
  have hamem : ∀ x ∈ (cycleLoop now st (proxies.zip results)).aliveL,
      (ipport_sort_key x).isSome = true := by
    intro x hx
    rw [cycleLoop_aliveL] at hx
    obtain ⟨⟨p, r⟩, hpr, rfl⟩ := List.mem_map.mp hx
    exact hkeys p (List.of_mem_zip (List.mem_filter.mp hpr).1).1
  have hdmem : ∀ x ∈ (cycleLoop now st (proxies.zip results)).deadL,
      (ipport_sort_key x).isSome = true := by
    intro x hx
    rw [cycleLoop_deadL] at hx
    obtain ⟨⟨p, r⟩, hpr, rfl⟩ := List.mem_map.mp hx
    exact hkeys p (List.of_mem_zip (List.mem_filter.mp hpr).1).1
  unfold buildSnapshot
  dsimp only
  rw [sortIpport_some hamem, sortIpport_some hdmem]

/-! ## Claim C2 -/

/-- Claim C2, counterexample: two configured proxies that share the
server:port string 1.2.3.4:443 and both fail give a snapshot whose
dead_list deduplicates to one element while dead_count is 2 — the counts
are the pre-deduplication list lengths, not the deduplicated ones. -/
theorem c2_counterexample :
    ((buildSnapshot
        [⟨"a", "1.2.3.4", 443, "dd01"⟩, ⟨"b", "1.2.3.4", 443, "ee02"⟩]
        [⟨false, false, none, none, "telethon", some 1, some "e"⟩,
          ⟨false, false, none, none, "telethon", some 2, some "e"⟩]
        100 ⟨[], []⟩).2.toOption.map
      (fun s => (s.dead_count, s.dead_list))) = some (2, ["1.2.3.4:443"]) ∧
    (2 : Nat) ≠ ["1.2.3.4:443"].length := by
  exact ⟨by decide, by decide⟩

/-- Claim C2 (amended): in every cycle snapshot the alive and dead lists
are the deduplicated server:port identity strings sorted numerically by
octets then port, alive_count is the number of results flagged ok and
dead_count the number flagged not ok (the lengths of the lists before
deduplication); these counts equal the published (deduplicated) list
lengths whenever the configured proxies have pairwise-distinct server:port
strings. -/
theorem c2_alive_dead_lists (proxies : List Proxy) (results : List CheckResult)
    (now : Nat) (st : CycleState)
    (hlen : results.length = proxies.length)
    (hkeys : ∀ p ∈ proxies, (ipport_sort_key (proxy_key_ipport p)).isSome = true) :
    ∃ snap, (buildSnapshot proxies results now st).2 = .ok snap ∧
      snap.alive_list.Nodup ∧ snap.dead_list.Nodup ∧
      List.Sorted ipLe snap.alive_list ∧ List.Sorted ipLe snap.dead_list ∧
      (∀ x, x ∈ snap.alive_list ↔
        ∃ pr ∈ proxies.zip results, pr.2.ok = true ∧ proxy_key_ipport pr.1 = x) ∧
      (∀ x, x ∈ snap.dead_list ↔
        ∃ pr ∈ proxies.zip results, pr.2.ok = false ∧ proxy_key_ipport pr.1 = x) ∧
      snap.alive_count = (proxies.zip results).countP (fun pr => pr.2.ok) ∧
      snap.dead_count = (proxies.zip results).countP (fun pr => !pr.2.ok) ∧
      ((proxies.map proxy_key_ipport).Nodup →
        snap.alive_count = snap.alive_list.length ∧
          snap.dead_count = snap.dead_list.length) := by
  refine ⟨_, buildSnapshot_ok proxies results now st hkeys, ?_, ?_, ?_, ?_, ?_, ?_, ?_, ?_, ?_⟩
  · exact (List.perm_insertionSort ipLe _).symm.nodup (List.nodup_dedup _)
  · exact (List.perm_insertionSort ipLe _).symm.nodup (List.nodup_dedup _)
  · exact List.sorted_insertionSort ipLe _
  · exact List.sorted_insertionSort ipLe _
  · intro x
    rw [(List.perm_insertionSort ipLe _).mem_iff, List.mem_dedup, cycleLoop_aliveL]
    constructor
    · intro hx
      obtain ⟨⟨p, r⟩, hpr, rfl⟩ := List.mem_map.mp hx
      exact ⟨(p, r), (List.mem_filter.mp hpr).1,
        by simpa using (List.mem_filter.mp hpr).2, rfl⟩
    · rintro ⟨pr, hpr, hok, rfl⟩
      exact List.mem_map.mpr ⟨pr, List.mem_filter.mpr ⟨hpr, by simpa using hok⟩, rfl⟩
  · intro x
    rw [(List.perm_insertionSort ipLe _).mem_iff, List.mem_dedup, cycleLoop_deadL]
    constructor
    · intro hx
      obtain ⟨⟨p, r⟩, hpr, rfl⟩ := List.mem_map.mp hx
      exact ⟨(p, r), (List.mem_filter.mp hpr).1,
        by simpa using (List.mem_filter.mp hpr).2, rfl⟩
    · rintro ⟨pr, hpr, hok, rfl⟩
      exact List.mem_map.mpr ⟨pr, List.mem_filter.mpr ⟨hpr, by simpa using hok⟩, rfl⟩
  · exact cycleLoop_aliveC now _ st
  · rw [cycleLoop_deadL, List.length_map, List.countP_eq_length_filter]
  · intro hnd
    have hmapfst : (proxies.zip results).map (fun pr => proxy_key_ipport pr.1) =
        proxies.map proxy_key_ipport := by
      have h1 : (proxies.zip results).map (fun pr => proxy_key_ipport pr.1) =
          ((proxies.zip results).map Prod.fst).map proxy_key_ipport := by
        rw [List.map_map]
        rfl
      rw [h1, List.map_fst_zip _ _ (le_of_eq hlen.symm)]
    have handup : (cycleLoop now st (proxies.zip results)).aliveL.Nodup := by
      rw [cycleLoop_aliveL]
      refine List.Nodup.sublist ?_ (hmapfst ▸ hnd)
      exact List.Sublist.map _ (List.filter_sublist _)
    have hdndup : (cycleLoop now st (proxies.zip results)).deadL.Nodup := by
      rw [cycleLoop_deadL]
      refine List.Nodup.sublist ?_ (hmapfst ▸ hnd)
      exact List.Sublist.map _ (List.filter_sublist _)
    constructor
    · rw [(List.perm_insertionSort ipLe _).length_eq, List.dedup_eq_self.mpr handup,
        cycleLoop_aliveL, cycleLoop_aliveC, List.length_map,
        List.countP_eq_length_filter]
    · rw [(List.perm_insertionSort ipLe _).length_eq, List.dedup_eq_self.mpr hdndup,
        cycleLoop_deadL, List.length_map]

/-- Claim C2, witness: one reachable and one dead proxy with distinct
addresses; the snapshot has singleton alive and dead lists and matching
counts. -/
theorem c2_alive_dead_lists_witness :
    ((([⟨false, false, none, none, "t", some 2, some "e"⟩,
        ⟨true, true, some "M", some "orig", "t", some 1, none⟩] :
          List CheckResult).length =
        ([⟨"a", "5.6.7.8", 80, "dd01"⟩, ⟨"b", "1.2.3.4", 443, "dd02"⟩] :
          List Proxy).length) ∧
      (∀ p ∈ ([⟨"a", "5.6.7.8", 80, "dd01"⟩, ⟨"b", "1.2.3.4", 443, "dd02"⟩] :
          List Proxy), (ipport_sort_key (proxy_key_ipport p)).isSome = true)) ∧
    (∃ snap,
      (buildSnapshot [⟨"a", "5.6.7.8", 80, "dd01"⟩, ⟨"b", "1.2.3.4", 443, "dd02"⟩]
          [⟨false, false, none, none, "t", some 2, some "e"⟩,
            ⟨true, true, some "M", some "orig", "t", some 1, none⟩]
          100 ⟨[], []⟩).2 = .ok snap ∧
        snap.alive_count = 1 ∧ snap.dead_count = 1 ∧
        snap.alive_count = snap.alive_list.length ∧
        snap.dead_count = snap.dead_list.length) := by
  refine ⟨⟨by decide, by decide⟩, ?_⟩
  obtain ⟨snap, hsnap, _, _, _, _, _, _, hac, hdc, hdistinct⟩ :=
    c2_alive_dead_lists [⟨"a", "5.6.7.8", 80, "dd01"⟩, ⟨"b", "1.2.3.4", 443, "dd02"⟩]
      [⟨false, false, none, none, "t", some 2, some "e"⟩,
        ⟨true, true, some "M", some "orig", "t", some 1, none⟩]
      100 ⟨[], []⟩ (by decide) (by decide)
  have hd := hdistinct (by decide)
  refine ⟨snap, hsnap, ?_, ?_, hd.1, hd.2⟩
  · rw [hac]
    decide
  · rw [hdc]
    decide

/-! ## Claim C9 -/

theorem flag_of_if_eq_zero {b : Bool} (h : (if b = true then (0 : Nat) else 1) = 0) :
    b = true := by
  cases b
  · simp at h
  · rfl

/-- A status below a reachable-and-confirmed status in the sort order is
itself reachable and confirmed. -/
theorem statusLe_flags {a b : ProxyStatus} (h : statusLe a b)
    (hb : b.ok = true ∧ b.telegram_ok = true) :
    a.ok = true ∧ a.telegram_ok = true := by
  unfold statusLe tripleLe statusKey at h
  dsimp only at h
  have h0 : (if b.ok = true then (0 : Nat) else 1) = 0 := by
    rw [hb.1]
    simp
  have h1 : (if b.telegram_ok = true then (0 : Nat) else 1) = 0 := by
    rw [hb.2]
    simp
  constructor
  · exact flag_of_if_eq_zero (by omega)
  · exact flag_of_if_eq_zero (by omega)

/-- Within one reachability/confirmation class the sort order compares
recorded latencies. -/
theorem statusLe_latency {a b : ProxyStatus} (h : statusLe a b)
    (hok : a.ok = b.ok) (htg : a.telegram_ok = b.telegram_ok) {la lb : Nat}
    (hla : a.latency_ms = some la) (hlb : b.latency_ms = some lb) : la ≤ lb := by
  unfold statusLe tripleLe statusKey at h
  rw [hla, hlb, hok, htg] at h
  dsimp only at h
  omega

/-- Every exit of check_one_proxy records a wall-clock latency. -/
theorem check_one_proxy_latency (tls : String → Bool × Option String)
    (probe : String → String → Bool × Bool × Option String)
    (modes : List String) (secret : String) (ms : Nat) :
    ((check_one_proxy tls probe modes secret ms).1).latency_ms = some ms := by
  unfold check_one_proxy
  dsimp only
  split
  · split
    · split
      · rfl
      · split <;> rfl
    · split <;> rfl
  · split <;> rfl

theorem cycleLoop_status_latency (now : Nat) :
    ∀ (pairs : List (Proxy × CheckResult)) (st : CycleState) (x : ProxyStatus),
      x ∈ (cycleLoop now st pairs).statuses →
      ∃ pr ∈ pairs, x.latency_ms = pr.2.latency_ms := by
  intro pairs
  induction pairs with
  | nil => intro st x hx; exact absurd hx (by simp [cycleLoop])
  | cons pr rest ih =>
      intro st x hx
      unfold cycleLoop at hx
      dsimp only at hx
      rcases List.mem_cons.mp hx with h | h
      · exact ⟨pr, List.mem_cons_self _ _, by rw [h]⟩
      · obtain ⟨pr2, hpr2, hl⟩ := ih _ x h
        exact ⟨pr2, List.mem_cons_of_mem _ hpr2, hl⟩

/-- Claim C9: the published status list is sorted ascending by the key
(not reachable, not confirmed, latency or the 10^9 sentinel); every
reachable-and-confirmed entry precedes every other entry; within one
reachability/confirmation class recorded latencies are nondecreasing; and
no published entry lacks a latency — check_one_proxy stamps every result
with one — so the no-latency clause of the claim never fires. -/
theorem c9_status_ordering (proxies : List Proxy) (results : List CheckResult)
    (now : Nat) (st : CycleState)
    (hkeys : ∀ p ∈ proxies, (ipport_sort_key (proxy_key_ipport p)).isSome = true)
    (hlat : ∀ r ∈ results, r.latency_ms ≠ none) :
    (∀ tls probe modes secret ms,
      ((check_one_proxy tls probe modes secret ms).1).latency_ms = some ms) ∧
    ∃ snap, (buildSnapshot proxies results now st).2 = .ok snap ∧
      List.Sorted statusLe snap.proxies ∧
      (∀ i j (hi : i < snap.proxies.length) (hj : j < snap.proxies.length),
        i < j →
        (snap.proxies.get ⟨j, hj⟩).ok = true ∧
          (snap.proxies.get ⟨j, hj⟩).telegram_ok = true →
        (snap.proxies.get ⟨i, hi⟩).ok = true ∧
          (snap.proxies.get ⟨i, hi⟩).telegram_ok = true) ∧
      (∀ i j (hi : i < snap.proxies.length) (hj : j < snap.proxies.length),
        i < j →
        (snap.proxies.get ⟨i, hi⟩).ok = (snap.proxies.get ⟨j, hj⟩).ok →
        (snap.proxies.get ⟨i, hi⟩).telegram_ok = (snap.proxies.get ⟨j, hj⟩).telegram_ok →
        ∀ la lb, (snap.proxies.get ⟨i, hi⟩).latency_ms = some la →
          (snap.proxies.get ⟨j, hj⟩).latency_ms = some lb → la ≤ lb) ∧
      (∀ x ∈ snap.proxies, x.latency_ms ≠ none) := by
  refine ⟨fun tls probe modes secret ms =>
    check_one_proxy_latency tls probe modes secret ms, ?_⟩
  refine ⟨_, buildSnapshot_ok proxies results now st hkeys, ?_, ?_, ?_, ?_⟩
  · exact List.sorted_insertionSort statusLe _
  · intro i j hi hj hij hjf
    dsimp only at hi hj hjf ⊢
    have hrel := (List.sorted_insertionSort statusLe
        (cycleLoop now st (proxies.zip results)).statuses).rel_get_of_lt
      (show (⟨i, hi⟩ : Fin _) < ⟨j, hj⟩ from hij)
    exact statusLe_flags hrel hjf
  · intro i j hi hj hij hok htg la lb hla hlb
    dsimp only at hi hj hok htg hla hlb
    have hrel := (List.sorted_insertionSort statusLe
        (cycleLoop now st (proxies.zip results)).statuses).rel_get_of_lt
      (show (⟨i, hi⟩ : Fin _) < ⟨j, hj⟩ from hij)
    exact statusLe_latency hrel hok htg hla hlb
  · intro x hx
    dsimp only at hx
    rw [(List.perm_insertionSort statusLe _).mem_iff] at hx
    obtain ⟨⟨p, r⟩, hpr, hlx⟩ := cycleLoop_status_latency now _ st x hx
    rw [hlx]
    exact hlat r (List.of_mem_zip hpr).2

/-- Claim C9, witness: a succeeding-and-confirmed proxy and a failing one;
the published list is sorted with the confirmed proxy first and every
entry carries a latency. -/
theorem c9_status_ordering_witness :
    ((∀ p ∈ ([⟨"a", "1.2.3.4", 443, "dd01"⟩, ⟨"b", "5.6.7.8", 80, "dd02"⟩] :
        List Proxy), (ipport_sort_key (proxy_key_ipport p)).isSome = true) ∧
      (∀ r ∈ ([⟨true, true, some "M", some "orig", "t", some 50, none⟩,
          ⟨false, false, none, none, "t", some 9, some "e"⟩] : List CheckResult),
        r.latency_ms ≠ none)) ∧
    (∃ snap, (buildSnapshot
          [⟨"a", "1.2.3.4", 443, "dd01"⟩, ⟨"b", "5.6.7.8", 80, "dd02"⟩]
          [⟨true, true, some "M", some "orig", "t", some 50, none⟩,
            ⟨false, false, none, none, "t", some 9, some "e"⟩]
          100 ⟨[], []⟩).2 = .ok snap ∧
        List.Sorted statusLe snap.proxies ∧
        (∀ x ∈ snap.proxies, x.latency_ms ≠ none)) := by
  refine ⟨⟨by decide, by decide⟩, ?_⟩
  obtain ⟨hck, snap, hsnap, hsort, hpre, hlat2, hnone⟩ :=
    c9_status_ordering [⟨"a", "1.2.3.4", 443, "dd01"⟩, ⟨"b", "5.6.7.8", 80, "dd02"⟩]
      [⟨true, true, some "M", some "orig", "t", some 50, none⟩,
        ⟨false, false, none, none, "t", some 9, some "e"⟩] 100 ⟨[], []⟩
      (by decide) (by decide)
  exact ⟨snap, hsnap, hsort, hnone⟩

/-! ## Claim C1 -/

/-- Claim C1: the error-snapshot path behaves as claimed — a failed
check_all publishes an error-flagged snapshot with empty lists and leaves
the tracker state untouched — but the post-probe merge, sort and snapshot
build run outside the try block guarding check_all, and ipport_sort_key
int-parses the dotted octets of the server string, so a configured proxy
whose server is a hostname rather than a dotted-decimal address raises an
uncaught ValueError while sorting the alive or dead list, crashing the
refresher thread; with numeric servers the same build succeeds. -/
theorem c1_cycle_error_isolation :
    refresherCycle [⟨"p1", "proxy.example.com", 443, "dd00"⟩]
        (.error ⟨"RuntimeError", "boom"⟩) 100 ⟨[], []⟩ =
      (⟨[], []⟩, .ok
        { timestamp := 100,
          metaError := some "refresher_failed: RuntimeError: boom",
          metaTotal := none, metaAlive := none, metaTelegramOk := none,
          alive_list := [], alive_count := 0, dead_list := [], dead_count := 0,
          proxies := [] }) ∧
    ipport_sort_key "proxy.example.com:443" = none ∧
    (buildSnapshot [⟨"p1", "proxy.example.com", 443, "dd00"⟩]
        [⟨true, false, none, some "orig", "telethon", some 5, none⟩]
        100 ⟨[], []⟩).2 =
      .error "ValueError: ipport_sort_key on a non-numeric server" ∧
    (buildSnapshot [⟨"p1", "1.2.3.4", 443, "dd00"⟩]
        [⟨true, false, none, some "orig", "telethon", some 5, none⟩]
        100 ⟨[], []⟩).2.toOption.isSome = true := by
  refine ⟨by decide, by decide, by decide, by decide⟩

end MtprotoChecker
